import Mathlib

/-!
# Verification of the beep protocol converter and AmpLabs datapath

A shallow embedding of the `beep` repository excerpt: the Maccor-to-Biologic
modulo-bat protocol converter (unit/value conversion, step classification,
limit/report translation, step-to-sequence expansion, cycle-advancement rule
serialization) and the AmpLabs cycler datapath (`beep/structure/amplabs.py`).

The protocol-converter module itself (`beep/protocol/maccor_to_biologic_mb.py`)
is not part of the source excerpt — only its unit tests
(`beep/tests/test_maccor_to_biologic_mb.py`) are.  Its definitions below are
therefore modelled from the specification, with the tests' expected
input/output pairs pinning the concrete behaviour.  Numeric values are embedded
as explicit numerator/denominator pairs over `Nat` so that every definition is
executable by the kernel.
-/

/-- Error taxonomy of the conversion core (spec section 7): `ParseError`,
`UnsupportedStepError`, `CapacityError`, `RangeError`, `ReferenceError`,
each carrying a human-readable message. -/
inductive ConvError where
  | ParseError (msg : String)
  | UnsupportedStepError (msg : String)
  | CapacityError (msg : String)
  | RangeError (msg : String)
  | ReferenceError (msg : String)
deriving DecidableEq, Repr

instance {ε α : Type} [DecidableEq ε] [DecidableEq α] : DecidableEq (Except ε α) := by
  intro x y
  cases x <;> cases y
  case error.error a b =>
    exact if h : a = b then .isTrue (by rw [h]) else .isFalse (by simp [h])
  case ok.ok a b =>
    exact if h : a = b then .isTrue (by rw [h]) else .isFalse (by simp [h])
  case error.ok a b => exact .isFalse (by simp)
  case ok.error a b => exact .isFalse (by simp)

/-- A nonnegative rational value as an explicit numerator/denominator pair.
This is the executable stand-in for the (nonnegative) numeric values handled
by the unit converter; the denominator is kept positive by construction. -/
structure Frac where
  num : Nat
  den : Nat
deriving DecidableEq, Repr

/-- Multiply a value by 1000 (one step down the unit ladder). -/
def Frac.times1000 (w : Frac) : Frac := ⟨w.num * 1000, w.den⟩

/-- Divide a value by 1000 (one step up the unit ladder). -/
def Frac.over1000 (w : Frac) : Frac := ⟨w.num, w.den * 1000⟩

/-- The value is exactly representable with 3 decimal digits:
`w * 1000` is an integer. -/
def Frac.exact3 (w : Frac) : Prop := w.num * 1000 % w.den = 0

instance (w : Frac) : Decidable w.exact3 := by unfold Frac.exact3; infer_instance

/-- Render a 3-decimal remainder (below 1000) as exactly three digit
characters, zero-padded on the left. -/
def pad3 (m : Nat) : String :=
  String.mk
    [Char.ofNat (48 + m / 100 % 10), Char.ofNat (48 + m / 10 % 10),
     Char.ofNat (48 + m % 10)]

/-- Render a value as a fixed-point string with exactly 3 decimal digits
(the Biologic modulo-bat display format). -/
def format3 (w : Frac) : String :=
  let n := w.num * 1000 / w.den
  Nat.repr (n / 1000) ++ "." ++ pad3 (n % 1000)

/-- Decimal digit value of a character, if it is a digit. -/
def digitVal? (c : Char) : Option Nat :=
  if '0' ≤ c ∧ c ≤ '9' then some (c.toNat - 48) else none

/-- Split a character list into its leading run of decimal digits (as digit
values) and the rest. -/
def takeDigits : List Char → List Nat × List Char
  | [] => ([], [])
  | c :: rest =>
    match digitVal? c with
    | some d =>
      match takeDigits rest with
      | (ds, r) => (d :: ds, r)
    | none => ([], c :: rest)

/-- Value of a big-endian list of digit values. -/
def digitsToNat (ds : List Nat) : Nat := ds.foldl (fun a d => a * 10 + d) 0

/-- Assemble mantissa `m` with `fl` fractional digits and decimal exponent
`e` (positive iff `pos`) into a fraction. -/
def applyExp (m fl e : Nat) (pos : Bool) : Frac :=
  if pos then
    if fl ≤ e then ⟨m * 10 ^ (e - fl), 1⟩ else ⟨m, 10 ^ (fl - e)⟩
  else ⟨m, 10 ^ (fl + e)⟩

/-- Parse the exponent part of a scientific-notation numeric string. -/
def parseExpPart (m fl : Nat) (t : List Char) : Option Frac :=
  let (pos, t1) :=
    match t with
    | '-' :: t1 => (false, t1)
    | '+' :: t1 => (true, t1)
    | _ => (true, t)
  match takeDigits t1 with
  | (eds, r) =>
    if eds.isEmpty ∨ ¬ r.isEmpty then none
    else some (applyExp m fl (digitsToNat eds) pos)

/-- Modelled from the spec: the numeric-string parser of the absent
`maccor_to_biologic_mb.py` converter.  Accepts an unsigned decimal literal
with optional fractional part and optional scientific-notation exponent
(as exercised by the tests: `"0.1429"`, `"0.1429e3"`, `"1.2e-4"`, ...),
producing its exact value; malformed strings are rejected. -/
def parseDecimal (cs : List Char) : Option Frac :=
  match takeDigits cs with
  | (ids, r1) =>
    let (fds, r2) :=
      match r1 with
      | '.' :: t => takeDigits t
      | _ => ([], r1)
    if ids.isEmpty ∧ fds.isEmpty then none
    else
      let m := digitsToNat (ids ++ fds)
      match r2 with
      | [] => some (applyExp m fds.length 0 true)
      | 'e' :: t => parseExpPart m fds.length t
      | 'E' :: t => parseExpPart m fds.length t
      | _ => none

/-- Ascend the unit ladder (divide by 1000) while the value is at least 1000
and room remains above the current rung. -/
def ascend : Nat → Nat → Frac → Nat × Frac
  | 0, j, w => (j, w)
  | room + 1, j, w =>
    if 1000 * w.den ≤ w.num then ascend room (j + 1) w.over1000 else (j, w)

/-- Descend the unit ladder (multiply by 1000) while the value is below 1
and room remains below the current rung. -/
def descend : Nat → Frac → Nat × Frac
  | 0, w => (0, w)
  | j + 1, w =>
    if w.num < w.den then descend j w.times1000 else (j + 1, w)

/-- Descend the unit ladder until the value is exactly representable with 3
decimal digits; fail at the bottom rung if it never becomes exact. -/
def exactDescend : Nat → Frac → Option (Nat × Frac)
  | 0, w => if w.exact3 then some (0, w) else none
  | j + 1, w =>
    if w.exact3 then some (j + 1, w) else exactDescend j w.times1000

/-- Modelled from the spec: the unit-ladder selection of the absent
`maccor_to_biologic_mb.py` converter.  `units` lists the unit suffixes from
finest to coarsest, `base` is the rung of the input's base unit.  The value
ascends the ladder while too large, descends while too small, must land in
the `[1, 1000)` display range, and then descends further until exactly
representable with 3 decimal digits (the tests pin `159.3624 V ↦
"159362.400" mV` and `152.9 V ↦ "152.900" V`). -/
def convertFrac (units : List String) (base : Nat) (w : Frac) :
    Except ConvError (String × String) :=
  match ascend (units.length - 1 - base) base w with
  | (j1, w1) =>
    match descend j1 w1 with
    | (j2, w2) =>
      if w2.den ≤ w2.num ∧ w2.num < 1000 * w2.den then
        match exactDescend j2 w2 with
        | some (i, v) => .ok (format3 v, units.getD i "")
        | none =>
          .error (.RangeError "not representable with 3 decimal digits")
      else .error (.RangeError "scaled magnitude outside the unit ladder")

/-- The voltage unit ladder, finest to coarsest. -/
def voltsUnits : List String := ["mV", "V"]

/-- The current unit ladder, finest to coarsest. -/
def ampsUnits : List String := ["µA", "mA", "A"]

/-- The power unit ladder, finest to coarsest. -/
def wattsUnits : List String := ["µW", "mW", "W"]

/-- The resistance unit ladder, finest to coarsest. -/
def ohmsUnits : List String := ["µOhms", "mOhms", "Ohms", "kOhms"]

/-- Modelled from the spec: `MaccorToBiologicMb._convert_volts` (absent from
the excerpt; behaviour pinned by `test_convert_volts`). -/
def _convert_volts (s : String) : Except ConvError (String × String) :=
  match parseDecimal s.data with
  | none => .error (.ParseError "malformed numeric string")
  | some w => convertFrac voltsUnits 1 w

/-- Modelled from the spec: `MaccorToBiologicMb._convert_amps` (absent from
the excerpt; behaviour pinned by `test_convert_amps`). -/
def _convert_amps (s : String) : Except ConvError (String × String) :=
  match parseDecimal s.data with
  | none => .error (.ParseError "malformed numeric string")
  | some w => convertFrac ampsUnits 2 w

/-- Modelled from the spec: `MaccorToBiologicMb._convert_watts` (absent from
the excerpt; behaviour pinned by `test_convert_watts`). -/
def _convert_watts (s : String) : Except ConvError (String × String) :=
  match parseDecimal s.data with
  | none => .error (.ParseError "malformed numeric string")
  | some w => convertFrac wattsUnits 2 w

/-- Modelled from the spec: `MaccorToBiologicMb._convert_ohms` (absent from
the excerpt; behaviour pinned by `test_convert_ohms`). -/
def _convert_ohms (s : String) : Except ConvError (String × String) :=
  match parseDecimal s.data with
  | none => .error (.ParseError "malformed numeric string")
  | some w => convertFrac ohmsUnits 2 w

/-- Split a character list at every colon. -/
def splitColons : List Char → List (List Char)
  | [] => [[]]
  | c :: rest =>
    if c = ':' then [] :: splitColons rest
    else
      match splitColons rest with
      | [] => [[c]]
      | g :: gs => (c :: g) :: gs

/-- Parse an hour or minute field of a duration string: a possibly empty run
of digits (an absent field parses as zero). -/
def parseTimeField (cs : List Char) : Except ConvError Nat :=
  match takeDigits cs with
  | (ds, []) => .ok (digitsToNat ds)
  | _ => .error (.ParseError "malformed duration field")

/-- Parse the seconds field of a duration string: optional digits, then an
optional fractional part (an absent field parses as zero). -/
def parseSecondsField (cs : List Char) : Except ConvError Frac :=
  match takeDigits cs with
  | (ids, r) =>
    match r with
    | [] => .ok ⟨digitsToNat ids, 1⟩
    | '.' :: t =>
      match takeDigits t with
      | (fds, []) =>
        .ok ⟨digitsToNat ids * 10 ^ fds.length + digitsToNat fds, 10 ^ fds.length⟩
      | _ => .error (.ParseError "malformed seconds field")
    | _ => .error (.ParseError "malformed seconds field")

/-- Total duration in seconds of the three `H:MM:SS.fraction` components. -/
def timeValue (h m s : List Char) : Except ConvError Frac := do
  let hv ← parseTimeField h
  let mv ← parseTimeField m
  let sv ← parseSecondsField s
  .ok ⟨(hv * 3600 + mv * 60) * sv.den + sv.num, sv.den⟩

/-- The duration `w` (in seconds) is a whole number of `k`-second units. -/
def wholeUnits (w : Frac) (k : Nat) : Prop := w.num % (k * w.den) = 0

instance (w : Frac) (k : Nat) : Decidable (wholeUnits w k) := by
  unfold wholeUnits; infer_instance

/-- Pick the time unit for a duration in seconds: the coarsest unit of the
`ms`/`s`/`mn`/`h` ladder in which the duration is a whole number, falling back
to milliseconds (the tests pin `"03::" ↦ "3.000" h`, `"03:30:" ↦ "210.000"
mn`, `"00:00:50" ↦ "50.000" s`, `"::.01" ↦ "10.000" ms`). -/
def pickTimeUnit (w : Frac) : String × String :=
  if wholeUnits w 3600 then (format3 ⟨w.num, 3600 * w.den⟩, "h")
  else if wholeUnits w 60 then (format3 ⟨w.num, 60 * w.den⟩, "mn")
  else if wholeUnits w 1 then (format3 w, "s")
  else (format3 w.times1000, "ms")

/-- Modelled from the spec: `MaccorToBiologicMb._convert_time` (absent from
the excerpt; behaviour pinned by `test_convert_time`).  Parses a
colon-delimited `H:MM:SS.fraction` duration, missing fields defaulting to
zero, and renders it in the coarsest exact time unit. -/
def _convert_time (s : String) : Except ConvError (String × String) :=
  match splitColons s.data with
  | [h, m, sec] => do
    let w ← timeValue h m sec
    .ok (pickTimeUnit w)
  | _ => .error (.ParseError "malformed duration string")

/-- Whitespace characters stripped by the vendor-token normalizer. -/
def isSpaceChar (c : Char) : Bool :=
  c == ' ' || c == '\t' || c == '\n' || c == '\r'

/-- Strip leading and trailing whitespace from a character list. -/
def trimChars (cs : List Char) : List Char :=
  ((cs.dropWhile isSpaceChar).reverse.dropWhile isSpaceChar).reverse

/-- Lower-case an ASCII letter. -/
def lowerChar (c : Char) : Char :=
  if 'A' ≤ c ∧ c ≤ 'Z' then Char.ofNat (c.toNat + 32) else c

/-- Whitespace-trim and case-normalize a vendor token (spec section 4.2). -/
def normToken (s : String) : String :=
  String.mk ((trimChars s.data).map lowerChar)

/-- Association-list lookup (the executable stand-in for the source's
class-level lookup dictionaries). -/
def alookup {α β : Type} [DecidableEq α] (k : α) : List (α × β) → Option β
  | [] => none
  | (a, b) :: t => if a = k then some b else alookup k t

/-- An `EndEntry` of a Maccor `TestStep`: end-condition type, special type,
comparison operator, branch-target step number, threshold value. -/
structure EndEntry where
  endType : String
  specialType : String
  oper : String
  step : Nat
  value : String
deriving DecidableEq, Repr, Inhabited

/-- A `ReportEntry` of a Maccor `TestStep`: report-trigger type and value. -/
structure ReportEntry where
  reportType : String
  value : String
deriving DecidableEq, Repr, Inhabited

/-- A Maccor `TestStep` as parsed from the procedure XML (spec section 3).
`repeats` models the repeat-count unrolling of the spec: the number of
sequence entries the step occupies in the expansion (at least one). -/
structure TestStep where
  stepType : String
  stepMode : String
  stepValue : String
  ends : List EndEntry
  reports : List ReportEntry
  repeats : Nat
  range : String
  option1 : String
  option2 : String
  option3 : String
  note : String
deriving DecidableEq, Repr, Inhabited

/-- A limit slot of a Biologic sequence entry:
`limN_type/comp/value/value_unit/seq`. -/
structure LimSlot where
  type : String
  comp : String
  value : String
  value_unit : String
  seq : Nat
deriving DecidableEq, Repr, Inhabited

/-- A record slot of a Biologic sequence entry: `recN_type/value/value_unit`. -/
structure RecSlot where
  type : String
  value : String
  value_unit : String
deriving DecidableEq, Repr, Inhabited

/-- A Biologic modulo-bat sequence entry ("Seq" in the target format).  Field names follow the
column set of the target text format (`Apply I/C` is `apply_I_C`,
`charge/discharge` is `charge_discharge`). -/
structure SeqEntry where
  Ns : Nat
  ctrl_type : String
  apply_I_C : String
  ctrl1_val : String
  ctrl1_val_unit : String
  ctrl1_val_vs : String
  N : String
  charge_discharge : String
  lim_nb : Nat
  lim1 : LimSlot
  lim2 : LimSlot
  lim3 : LimSlot
  rec_nb : Nat
  rec1 : RecSlot
  rec2 : RecSlot
deriving DecidableEq, Repr, Inhabited

/-- Modelled from the spec: the blank-sequence template of the absent
converter — a `SequenceEntry` with all slots at default/disabled values,
copied per step. -/
def _blank_seq : SeqEntry where
  Ns := 0
  ctrl_type := ""
  apply_I_C := ""
  ctrl1_val := ""
  ctrl1_val_unit := ""
  ctrl1_val_vs := ""
  N := ""
  charge_discharge := ""
  lim_nb := 0
  lim1 := ⟨"", "", "", "", 0⟩
  lim2 := ⟨"", "", "", "", 0⟩
  lim3 := ⟨"", "", "", "", 0⟩
  rec_nb := 0
  rec1 := ⟨"", "", ""⟩
  rec2 := ⟨"", "", ""⟩

/-- The classifier's output: target control type, `Apply I/C` flag, `N`
parameter, and polarity. -/
structure CtrlSpec where
  ctrl_type : String
  apply_I_C : String
  N : String
  polarity : String
deriving DecidableEq, Repr

/-- Modelled from the spec: the explicit alias table for known misspelled
vendor tokens ("known misspelled vendor tokens (e.g., a truncated
'discharge') must be recognized via an explicit alias table, not corrected
by fuzzy matching"). -/
def step_type_aliases : List (String × String) := [("dischrge", "discharge")]

/-- Resolve a normalized step type through the alias table. -/
def applyAliases (t : String) : String := (alookup t step_type_aliases).getD t

/-- Modelled from the spec: the supported (step type, step mode) table of the
absent converter's step classifier (spec section 4.2), with the `N`
parameter values pinned by the conversion tests. -/
def ctrl_table : List ((String × String) × CtrlSpec) :=
  [(("charge", "current"), ⟨"CC", "I", "15.00", "Charge"⟩),
   (("discharge", "current"), ⟨"CC", "I", "15.00", "Discharge"⟩),
   (("charge", "voltage"), ⟨"CV", "I", "15.00", "Charge"⟩),
   (("discharge", "voltage"), ⟨"CV", "I", "15.00", "Discharge"⟩)]

/-- Modelled from the spec: the step classifier of the absent converter.
A "rest" step type yields the fixed rest control type regardless of mode;
other (type, mode) pairs are looked up in the supported table after
normalization and alias resolution; unknown pairs fail with
`UnsupportedStepError`. -/
def classify (stepType stepMode : String) : Except ConvError CtrlSpec :=
  let t := applyAliases (normToken stepType)
  if t = "rest" then .ok ⟨"Rest", "I", "1.00", "Charge"⟩
  else
    match alookup (t, normToken stepMode) ctrl_table with
    | some spec => .ok spec
    | none => .error (.UnsupportedStepError "unrecognized step type/mode pair")

/-- Modelled from the spec: control-value conversion for the `ctrl1` fields.
Rest steps carry no control value; otherwise the step value is converted by
the ladder of the step mode's quantity. -/
def ctrlValue (spec : CtrlSpec) (stepMode stepValue : String) :
    Except ConvError (String × String × String) :=
  if spec.ctrl_type = "Rest" then .ok ("", "", "")
  else
    let m := normToken stepMode
    if m = "current" then
      match _convert_amps stepValue with
      | .error e => .error e
      | .ok (v, un) => .ok (v, un, "<None>")
    else if m = "voltage" then
      match _convert_volts stepValue with
      | .error e => .error e
      | .ok (v, un) => .ok (v, un, "<None>")
    else if m = "power" then
      match _convert_watts stepValue with
      | .error e => .error e
      | .ok (v, un) => .ok (v, un, "<None>")
    else if m = "resistance" then
      match _convert_ohms stepValue with
      | .error e => .error e
      | .ok (v, un) => .ok (v, un, "<None>")
    else .error (.UnsupportedStepError "unrecognized step mode")

/-- Map a Maccor comparison operator to the target comparator (spec section
4.3); elapsed-time limits always use the `>` comparator. -/
def mapOper (endTypeNorm operNorm : String) : Except ConvError String :=
  if endTypeNorm = "steptime" then .ok ">"
  else if operNorm = ">=" then .ok ">"
  else if operNorm = "<=" then .ok "<"
  else .error (.ParseError "unrecognized comparison operator")

/-- Modelled from the spec: translation of one `EndEntry` into a limit slot
(spec section 4.3).  The goto-sequence field is resolved through `resolve`. -/
def translateEnd (resolve : Nat → Nat) (e : EndEntry) : Except ConvError LimSlot :=
  let t := normToken e.endType
  if t = "voltage" then
    match mapOper t (normToken e.oper) with
    | .error er => .error er
    | .ok comp =>
      match _convert_volts e.value with
      | .error er => .error er
      | .ok (v, un) => .ok ⟨"Ecell", comp, v, un, resolve e.step⟩
  else if t = "current" then
    match mapOper t (normToken e.oper) with
    | .error er => .error er
    | .ok comp =>
      match _convert_amps e.value with
      | .error er => .error er
      | .ok (v, un) => .ok ⟨"I", comp, v, un, resolve e.step⟩
  else if t = "steptime" then
    match _convert_time e.value with
    | .error er => .error er
    | .ok (v, un) => .ok ⟨"Time", ">", v, un, resolve e.step⟩
  else .error (.ParseError "unrecognized end-condition type")

/-- Modelled from the spec: translation of one `ReportEntry` into a record
slot (spec section 4.3). -/
def translateReport (r : ReportEntry) : Except ConvError RecSlot :=
  let t := normToken r.reportType
  if t = "voltage" then
    match _convert_volts r.value with
    | .error er => .error er
    | .ok (v, un) => .ok ⟨"Ecell", v, un⟩
  else if t = "current" then
    match _convert_amps r.value with
    | .error er => .error er
    | .ok (v, un) => .ok ⟨"I", v, un⟩
  else if t = "steptime" then
    match _convert_time r.value with
    | .error er => .error er
    | .ok (v, un) => .ok ⟨"Time", v, un⟩
  else .error (.ParseError "unrecognized report-trigger type")

/-- Fail-fast effectful map over a list: the embedding of a Python loop that
raises on the first bad element (spec section 7: errors are raised
immediately at the point of detection). -/
def mapE {α β : Type} (f : α → Except ConvError β) : List α → Except ConvError (List β)
  | [] => .ok []
  | a :: t =>
    match f a with
    | .error e => .error e
    | .ok b =>
      match mapE f t with
      | .error e => .error e
      | .ok bs => .ok (b :: bs)

/-- Modelled from the spec: fill the three limit slots of a sequence entry
from a step's end conditions.  More end conditions than slots is a
`CapacityError`; unused slots keep defaults, with their goto-sequence field
pointing at the following step. -/
def limSlots (resolve : Nat → Nat) (stepNum : Nat) (ends : List EndEntry) :
    Except ConvError (LimSlot × LimSlot × LimSlot) :=
  if 3 < ends.length then
    .error (.CapacityError "more end conditions than limit slots")
  else
    match mapE (translateEnd resolve) ends with
    | .error e => .error e
    | .ok ls =>
      let dft : LimSlot := ⟨"", "", "", "", resolve (stepNum + 1)⟩
      .ok (ls.getD 0 dft, ls.getD 1 dft, ls.getD 2 dft)

/-- Modelled from the spec: fill the two record slots of a sequence entry
from a step's report triggers; more triggers than slots is a
`CapacityError`. -/
def recSlots (reports : List ReportEntry) : Except ConvError (RecSlot × RecSlot) :=
  if 2 < reports.length then
    .error (.CapacityError "more report triggers than record slots")
  else
    match mapE translateReport reports with
    | .error e => .error e
    | .ok rs => .ok (rs.getD 0 ⟨"", "", ""⟩, rs.getD 1 ⟨"", "", ""⟩)

/-- Modelled from the spec: conversion of one step occurrence into the
sequence entry with index `ns`, populating the blank-sequence template. -/
def convertStep (resolve : Nat → Nat) (stepNum ns : Nat) (st : TestStep) :
    Except ConvError SeqEntry :=
  match classify st.stepType st.stepMode with
  | .error e => .error e
  | .ok spec =>
    match ctrlValue spec st.stepMode st.stepValue with
    | .error e => .error e
    | .ok (c1v, c1u, c1vs) =>
      match limSlots resolve stepNum st.ends with
      | .error e => .error e
      | .ok (l1, l2, l3) =>
        match recSlots st.reports with
        | .error e => .error e
        | .ok (r1, r2) =>
          .ok { _blank_seq with
            Ns := ns
            ctrl_type := spec.ctrl_type
            apply_I_C := spec.apply_I_C
            ctrl1_val := c1v
            ctrl1_val_unit := c1u
            ctrl1_val_vs := c1vs
            N := spec.N
            charge_discharge := spec.polarity
            lim_nb := st.ends.length
            lim1 := l1
            lim2 := l2
            lim3 := l3
            rec_nb := st.reports.length
            rec1 := r1
            rec2 := r2 }

/-- Modelled from the spec: goto-target resolution.  A branch to step `t`
becomes the first sequence index generated for `t` when that index lies
within the goto bounds; otherwise the branch is redirected to the designated
end step's first sequence index (0 when even that is unavailable). -/
def resolveGoto (m : List (Nat × List Nat)) (lo hi endStep t : Nat) : Nat :=
  let fallback := ((alookup endStep m).bind List.head?).getD 0
  match (alookup t m).bind List.head? with
  | some s => if lo ≤ s ∧ s ≤ hi then s else fallback
  | none => fallback

/-- Modelled from the spec: `MaccorToBiologicMb._convert_step_parts` (absent
from the excerpt; behaviour pinned by the step-conversion tests).  Converts
the unrolled occurrences of step `step_num`, pairing them with the sequence
indices the numbering prepass assigned to that step. -/
def _convert_step_parts (step_parts : List TestStep) (step_num : Nat)
    (seq_nums_by_step_num : List (Nat × List Nat))
    (goto_lowerbound goto_upperbound end_step_num : Nat) :
    Except ConvError (List SeqEntry) :=
  let nss := (alookup step_num seq_nums_by_step_num).getD []
  mapE
    (fun p =>
      convertStep
        (resolveGoto seq_nums_by_step_num goto_lowerbound goto_upperbound
          end_step_num)
        step_num p.2 p.1)
    (step_parts.zip nss)

/-- Number of sequence entries a step occupies: at least one, more under
repeat-count unrolling. -/
def numSeqs (s : TestStep) : Nat := max 1 s.repeats

/-- Modelled from the spec: the numbering prepass — assign each step number
(starting at `stepNum`) its consecutive block of sequence indices (starting
at `offset`). -/
def buildSeqMap : Nat → Nat → List TestStep → List (Nat × List Nat)
  | _, _, [] => []
  | stepNum, offset, s :: rest =>
    (stepNum, (List.range (numSeqs s)).map (fun k => offset + k)) ::
      buildSeqMap (stepNum + 1) (offset + numSeqs s) rest

/-- Total number of sequence entries of a procedure. -/
def totalSeqs (steps : List TestStep) : Nat := (steps.map numSeqs).sum

/-- The numbering prepass over a whole procedure (1-based step numbers,
0-based sequence indices). -/
def seqNumsOf (steps : List TestStep) : List (Nat × List Nat) :=
  buildSeqMap 1 0 steps

/-- Modelled from the spec: the expansion walk — convert each step's
unrolled parts in order against the global numbering map and concatenate. -/
def expandSteps (m : List (Nat × List Nat)) (lo hi endStep : Nat) :
    Nat → List TestStep → Except ConvError (List SeqEntry)
  | _, [] => .ok []
  | stepNum, s :: rest =>
    match _convert_step_parts (List.replicate (numSeqs s) s) stepNum m lo hi
        endStep with
    | .error e => .error e
    | .ok part =>
      match expandSteps m lo hi endStep (stepNum + 1) rest with
      | .error e => .error e
      | .ok tail => .ok (part ++ tail)

/-- Modelled from the spec: the Step-to-Sequence Expander (spec section 4.4)
over a whole procedure: numbering prepass, then field population, goto
bounds spanning the produced indices and the last step as the designated end
step. -/
def expandProcedure (steps : List TestStep) : Except ConvError (List SeqEntry) :=
  expandSteps (seqNumsOf steps) 0 (totalSeqs steps - 1) steps.length 1 steps

/-- The rest step of `test_rest_step_conversion`, as parsed from its XML
(whitespace-padded vendor tokens kept verbatim). -/
def restStep : TestStep where
  stepType := "  Rest  "
  stepMode := "        "
  stepValue := ""
  ends :=
    [⟨"Voltage ", " ", ">= ", 2, "4.4"⟩,
     ⟨"Voltage ", " ", "<= ", 2, "2.5"⟩]
  reports := [⟨"Voltage", "2.2"⟩]
  repeats := 1
  range := "A"
  option1 := "N"
  option2 := "N"
  option3 := "N"
  note := ""

/-- The discharge step of `test_discharge_current_step_conversion`, as
parsed from its XML (the misspelled `Dischrge` vendor token kept
verbatim). -/
def dischargeStep : TestStep where
  stepType := "Dischrge"
  stepMode := "Current "
  stepValue := "1.0"
  ends :=
    [⟨"StepTime", " ", " = ", 2, "00:00:30"⟩,
     ⟨"Voltage ", " ", "<= ", 2, "2.7"⟩,
     ⟨"Voltage ", " ", ">= ", 2, "4.4"⟩]
  reports := [⟨"Voltage ", "0.001"⟩, ⟨"StepTime", "::.01"⟩]
  repeats := 1
  range := "A"
  option1 := "N"
  option2 := "N"
  option3 := "N"
  note := ""

/-- The numbering map of the single-step conversion tests:
step 1 occupies sequence 0, step 2 occupies sequence 1. -/
def testSeqNums : List (Nat × List Nat) := [(1, [0]), (2, [1])]

/-- The sequence entries produced for the rest-step test. -/
def restStepResult : List SeqEntry :=
  (_convert_step_parts [restStep] 1 testSeqNums 0 3 4).toOption.getD []

/-- The sequence entries produced for the discharge-step test. -/
def dischargeStepResult : List SeqEntry :=
  (_convert_step_parts [dischargeStep] 1 testSeqNums 0 3 4).toOption.getD []

/-- The expansion of the two-step procedure made of the rest step and the
discharge step (a concrete instance of the whole-procedure expander). -/
def twoStepResult : List SeqEntry :=
  (expandProcedure [restStep, dischargeStep]).toOption.getD []

/-- Modelled from the spec: `CycleAdvancementRules` of the absent
`maccor_to_biologic_mb.py` (spec section 4.5) — technique count, loop flag,
the two fixed-lifecycle increments, and the two transition mappings
(finite mappings embedded as association lists). -/
structure CycleAdvancementRules where
  tech_num : Nat
  tech_does_loop : Bool
  adv_cycle_on_start : Nat
  adv_cycle_on_tech_loop : Nat
  adv_cycle_seq_transitions : List ((Nat × Nat) × Nat)
  debug_adv_cycle_on_step_transitions : List ((Nat × Nat) × Nat)
deriving DecidableEq, Repr

/-- The character of a decimal digit value. -/
def digitToChar (d : Nat) : Char := Char.ofNat (48 + d)

/-- Little-endian decimal digits of `n`, with explicit fuel so the kernel
can evaluate it. -/
def digitsAux : Nat → Nat → List Nat
  | 0, _ => []
  | _ + 1, 0 => []
  | fuel + 1, n + 1 => (n + 1) % 10 :: digitsAux fuel ((n + 1) / 10)

/-- Big-endian decimal digits of `n` (`[0]` for zero). -/
def digitsOf (n : Nat) : List Nat :=
  if n = 0 then [0] else (digitsAux n n).reverse

/-- Decimal rendering of a natural number as characters. -/
def natChars (n : Nat) : List Char := (digitsOf n).map digitToChar

/-- One-character rendering of a boolean. -/
def boolChar (b : Bool) : Char := if b then 't' else 'f'

/-- Canonical text of one transition-mapping entry `((from, to), delta)`. -/
def entryChars (e : (Nat × Nat) × Nat) : List Char :=
  '(' :: (natChars e.1.1 ++ ',' :: (natChars e.1.2 ++ ',' :: (natChars e.2 ++ [')'])))

/-- Concatenated canonical text of a transition mapping's entries. -/
def entriesChars (l : List ((Nat × Nat) × Nat)) : List Char :=
  (l.map entryChars).flatten

/-- Canonical text of a transition mapping: entry count, then entries. -/
def transChars (l : List ((Nat × Nat) × Nat)) : List Char :=
  natChars l.length ++ ':' :: entriesChars l

/-- Modelled from the spec: the canonical textual form of
`CycleAdvancementRules` ("produce a canonical text form (its own structure,
not just key-value dump) from which an equal-valued object can be
reconstructed"). -/
def serializeChars (r : CycleAdvancementRules) : List Char :=
  natChars r.tech_num ++
    ';' :: boolChar r.tech_does_loop ::
      ';' :: (natChars r.adv_cycle_on_start ++
        ';' :: (natChars r.adv_cycle_on_tech_loop ++
          ';' :: (transChars r.adv_cycle_seq_transitions ++
            ';' :: transChars r.debug_adv_cycle_on_step_transitions)))

/-- Modelled from the spec: `CycleAdvancementRulesSerializer.json` of the
absent module — serialize the rules to their textual form. -/
def CycleAdvancementRulesSerializer.json (r : CycleAdvancementRules) : String :=
  String.mk (serializeChars r)

/-- Parse a decimal natural number off the front of the text. -/
def parseNat (cs : List Char) : Option (Nat × List Char) :=
  match takeDigits cs with
  | ([], _) => none
  | (ds, rest) => some (digitsToNat ds, rest)

/-- Parse a one-character boolean off the front of the text. -/
def parseBool : List Char → Option (Bool × List Char)
  | 't' :: cs => some (true, cs)
  | 'f' :: cs => some (false, cs)
  | _ => none

/-- Parse one transition-mapping entry. -/
def parseEntry (cs : List Char) : Option (((Nat × Nat) × Nat) × List Char) :=
  match cs with
  | '(' :: cs1 =>
    match parseNat cs1 with
    | some (a, ',' :: cs2) =>
      match parseNat cs2 with
      | some (b, ',' :: cs3) =>
        match parseNat cs3 with
        | some (c, ')' :: cs4) => some (((a, b), c), cs4)
        | _ => none
      | _ => none
    | _ => none
  | _ => none

/-- Parse a counted list of transition-mapping entries. -/
def parseEntries : Nat → List Char → Option (List ((Nat × Nat) × Nat) × List Char)
  | 0, cs => some ([], cs)
  | k + 1, cs =>
    match parseEntry cs with
    | some (e, cs1) =>
      match parseEntries k cs1 with
      | some (es, cs2) => some (e :: es, cs2)
      | none => none
    | none => none

/-- Parse a transition mapping (its entry count, then its entries). -/
def parseTrans (cs : List Char) : Option (List ((Nat × Nat) × Nat) × List Char) :=
  match parseNat cs with
  | some (len, ':' :: cs1) => parseEntries len cs1
  | _ => none

/-- Parse a whole serialized `CycleAdvancementRules` document, requiring the
text to be consumed entirely. -/
def parseRules (cs : List Char) : Option CycleAdvancementRules :=
  match parseNat cs with
  | some (tn, ';' :: cs1) =>
    match parseBool cs1 with
    | some (loop, ';' :: cs2) =>
      match parseNat cs2 with
      | some (st, ';' :: cs3) =>
        match parseNat cs3 with
        | some (tl, ';' :: cs4) =>
          match parseTrans cs4 with
          | some (seqtr, ';' :: cs5) =>
            match parseTrans cs5 with
            | some (dbgtr, []) => some ⟨tn, loop, st, tl, seqtr, dbgtr⟩
            | _ => none
          | _ => none
        | _ => none
      | _ => none
    | _ => none
  | _ => none

/-- Modelled from the spec: `CycleAdvancementRulesSerializer.parse_json` of
the absent module — reconstruct the rules from their textual form. -/
def CycleAdvancementRulesSerializer.parse_json (s : String) :
    Option CycleAdvancementRules :=
  parseRules s.data

/-- Value of a little-endian decimal digit list. -/
def valLE : List Nat → Nat
  | [] => 0
  | d :: t => d + 10 * valLE t

/-- Lower-case a string (the `str.lower` column rename of `from_df`). -/
def strLower (s : String) : String := String.mk (s.data.map lowerChar)

/-- A cell of a tabular column: missing (`null`), numeric (the exact value
`n / d`), or textual. -/
inductive Cell where
  | null
  | num (n : Int) (d : Nat)
  | str (s : String)
deriving DecidableEq, Repr

/-- A pandas column dtype, as far as the datapath distinguishes them. -/
inductive Dtype where
  | float64
  | float32
  | int32
  | obj
deriving DecidableEq, Repr

/-- A dataframe column: its dtype tag and its cells. -/
structure Col where
  dtype : Dtype
  cells : List Cell
deriving DecidableEq, Repr

/-- A dataframe: named columns in order. -/
def DataFrame := List (String × Col)

/-- `beep/structure/amplabs.py` line 26: mapping of raw data file columns to
BEEP columns. -/
def AmpLabsDatapath.COLUMN_MAPPING : List (String × String) :=
  [("Test_Time (s)", "test_time"),
   ("Cycle_Index", "cycle_index"),
   ("Current (a)", "current"),
   ("Voltage (v)", "voltage"),
   ("Charge_Capacity (ah)", "charge_capacity"),
   ("Discharge_Capacity (ah)", "discharge_capacity"),
   ("Charge_Energy (wh)", "charge_energy"),
   ("Discharge_Energy (wh)", "discharge_energy"),
   ("Cell_Temperature (c)", "temperature")]

/-- `beep/structure/amplabs.py` line 39: columns to ignore. -/
def AmpLabsDatapath.COLUMNS_IGNORE : List String :=
  ["environment_temperature (c)"]

/-- `beep/structure/amplabs.py` line 42: mapping of data types for BEEP
columns. -/
def AmpLabsDatapath.DATA_TYPES : List (String × Dtype) :=
  [("test_time", .float64),
   ("cycle_index", .int32),
   ("current", .float32),
   ("voltage", .float32),
   ("charge_capacity", .float64),
   ("discharge_capacity", .float64),
   ("charge_energy", .float64),
   ("discharge_energy", .float64),
   ("temperature", .float32),
   ("date_time", .float32)]

/-- Replace the column named `n` (or append it when absent), as pandas
column assignment does. -/
def setCol : List (String × Col) → String → Col → List (String × Col)
  | [], n, c => [(n, c)]
  | (a, b) :: t, n, c =>
    if a = n then (n, c) :: t else (a, b) :: setCol t n c

/-- The column contains a missing value (`df[column].isnull().values.any()`). -/
def hasNullCol (c : Col) : Bool :=
  c.cells.any fun x =>
    match x with
    | .null => true
    | _ => false

/-- Cast one cell to a dtype.  Float casts keep the exact value; the `int32`
cast truncates toward zero and wraps into the 32-bit signed range, as
`astype("int32")` does. -/
def castCell (ty : Dtype) : Cell → Cell
  | .null => .null
  | .str s => .str s
  | .num n d =>
    match ty with
    | .int32 => .num ((Int.tdiv n d + 2 ^ 31) % 2 ^ 32 - 2 ^ 31) 1
    | _ => .num n d

/-- Cast a whole column to a dtype. -/
def astype (ty : Dtype) (c : Col) : Col := ⟨ty, c.cells.map (castCell ty)⟩

/-- `beep/structure/amplabs.py` lines 111-114: for each `DATA_TYPES` entry,
cast the column when it is present and free of nulls. -/
def castLoop (entries : List (String × Dtype)) (df : List (String × Col)) :
    List (String × Col) :=
  match entries with
  | [] => df
  | (k, ty) :: rest =>
    castLoop rest
      (match alookup k df with
       | some col => if hasNullCol col then df else setCol df k (astype ty col)
       | none => df)

/-- A naive datetime as `datetime.strptime` produces it. -/
structure PyDateTime where
  year : Nat
  month : Nat
  day : Nat
  hour : Nat
  minute : Nat
  second : Nat
  usec : Nat
deriving DecidableEq, Repr, Inhabited

/-- Parse exactly `k` decimal digits into a value. -/
def takeExactAux : Nat → Nat → List Char → Option (Nat × List Char)
  | 0, acc, cs => some (acc, cs)
  | k + 1, acc, cs =>
    match cs with
    | c :: t =>
      match digitVal? c with
      | some d => takeExactAux k (acc * 10 + d) t
      | none => none
    | [] => none

/-- Consume one expected literal character. -/
def expectChar (c : Char) : List Char → Option (List Char)
  | x :: t => if x = c then some t else none
  | [] => none

/-- `datetime.strptime(x, "%Y-%m-%dT%H:%M:%S.%fZ")`, the vendor datetime
format of `from_df` (line 106): four-digit year, two-digit fields, a 1-6
digit fraction right-padded to microseconds, and a literal `Z`; fields are
range-checked as the library does. -/
def strptimeAmplabs (s : String) : Option PyDateTime :=
  match takeExactAux 4 0 s.data with
  | none => none
  | some (y, r1) =>
    match expectChar '-' r1 with
    | none => none
    | some r2 =>
      match takeExactAux 2 0 r2 with
      | none => none
      | some (mo, r3) =>
        match expectChar '-' r3 with
        | none => none
        | some r4 =>
          match takeExactAux 2 0 r4 with
          | none => none
          | some (d, r5) =>
            match expectChar 'T' r5 with
            | none => none
            | some r6 =>
              match takeExactAux 2 0 r6 with
              | none => none
              | some (h, r7) =>
                match expectChar ':' r7 with
                | none => none
                | some r8 =>
                  match takeExactAux 2 0 r8 with
                  | none => none
                  | some (mi, r9) =>
                    match expectChar ':' r9 with
                    | none => none
                    | some r10 =>
                      match takeExactAux 2 0 r10 with
                      | none => none
                      | some (se, r11) =>
                        match expectChar '.' r11 with
                        | none => none
                        | some r12 =>
                          match takeDigits r12 with
                          | (fds, r13) =>
                            if fds.isEmpty ∨ 6 < fds.length then none
                            else
                              match expectChar 'Z' r13 with
                              | none => none
                              | some [] =>
                                if 1 ≤ mo ∧ mo ≤ 12 ∧ 1 ≤ d ∧ d ≤ 31 ∧
                                    h < 24 ∧ mi < 60 ∧ se < 62 then
                                  some ⟨y, mo, d, h, mi, se,
                                    digitsToNat fds * 10 ^ (6 - fds.length)⟩
                                else none
                              | some _ => none

/-- Two-digit zero-padded decimal rendering. -/
def pad2 (n : Nat) : String :=
  String.mk [digitToChar (n / 10 % 10), digitToChar (n % 10)]

/-- Four-digit zero-padded decimal rendering. -/
def pad4 (n : Nat) : String :=
  String.mk [digitToChar (n / 1000 % 10), digitToChar (n / 100 % 10),
    digitToChar (n / 10 % 10), digitToChar (n % 10)]

/-- Six-digit zero-padded decimal rendering. -/
def pad6 (n : Nat) : String :=
  String.mk [digitToChar (n / 100000 % 10), digitToChar (n / 10000 % 10),
    digitToChar (n / 1000 % 10), digitToChar (n / 100 % 10),
    digitToChar (n / 10 % 10), digitToChar (n % 10)]

/-- `datetime.isoformat()`: an ISO-8601 timestamp, with the microsecond part
omitted when zero. -/
def isoformat (dt : PyDateTime) : String :=
  pad4 dt.year ++ "-" ++ pad2 dt.month ++ "-" ++ pad2 dt.day ++ "T" ++
    pad2 dt.hour ++ ":" ++ pad2 dt.minute ++ ":" ++ pad2 dt.second ++
    (if dt.usec = 0 then "" else "." ++ pad6 dt.usec)

/-- Days between a civil date and 1970-01-01 (the standard
days-from-civil computation used to model `datetime.timestamp()`). -/
def daysFromCivil (y m d : Nat) : Int :=
  let yy : Int := (y : Int) - (if m ≤ 2 then 1 else 0)
  let era : Int := (if 0 ≤ yy then yy else yy - 399).tdiv 400
  let yoe : Int := yy - era * 400
  let mp : Int := ((m : Int) + 9) % 12
  let doy : Int := (153 * mp + 2).tdiv 5 + (d : Int) - 1
  let doe : Int := yoe * 365 + yoe.tdiv 4 - yoe.tdiv 100 + doy
  era * 146097 + doe - 719468

/-- `datetime.timestamp()` modelled as exact epoch seconds (numerator over a
microsecond denominator). -/
def timestampNum (dt : PyDateTime) : Int × Nat :=
  ((daysFromCivil dt.year dt.month dt.day * 86400 +
      (dt.hour * 3600 + dt.minute * 60 + dt.second : Nat)) * 1000000 +
    (dt.usec : Int), 1000000)

/-- Fail-fast map over a list in the `Option` monad (a Python loop that
raises on the first bad element). -/
def mapO {α β : Type} (f : α → Option β) : List α → Option (List β)
  | [] => some []
  | a :: t =>
    match f a with
    | none => none
    | some b =>
      match mapO f t with
      | none => none
      | some bs => some (b :: bs)

/-- `beep/structure/amplabs.py` lines 101-103: rename columns through
`COLUMN_MAPPING`, lower-case all column names, drop the ignored columns. -/
def prepRename (df : List (String × Col)) : List (String × Col) :=
  (df.map fun p =>
      (strLower ((alookup p.1 AmpLabsDatapath.COLUMN_MAPPING).getD p.1), p.2))
    |>.filter fun p => ¬ p.1 ∈ AmpLabsDatapath.COLUMNS_IGNORE

/-- `beep/structure/amplabs.py` lines 90-123, `AmpLabsDatapath.from_df`:
rename and drop columns, copy `cycle_index` into `step_index` and
`test_time` into `step_time`, parse `date_time` with the vendor format and
replace it by epoch timestamps alongside a new ISO-8601 `date_time_iso`
column, then cast every null-free `DATA_TYPES` column to its declared
dtype.  A missing required column or an unparsable datetime raises (here:
`none`). -/
def AmpLabsDatapath.from_df (df : List (String × Col)) :
    Option (List (String × Col)) :=
  let df2 := prepRename df
  match alookup "cycle_index" df2 with
  | none => none
  | some cyc =>
    let df3 := setCol df2 "step_index" cyc
    match alookup "test_time" df3 with
    | none => none
    | some tt =>
      let df4 := setCol df3 "step_time" tt
      match alookup "date_time" df4 with
      | none => none
      | some dtcol =>
        match mapO
            (fun c =>
              match c with
              | Cell.str s => strptimeAmplabs s
              | _ => none)
            dtcol.cells with
        | none => none
        | some dts =>
          let df5 := setCol df4 "date_time"
            ⟨Dtype.float64,
             dts.map fun dt => Cell.num (timestampNum dt).1 (timestampNum dt).2⟩
          let df6 := setCol df5 "date_time_iso"
            ⟨Dtype.obj, dts.map fun dt => Cell.str (isoformat dt)⟩
          some (castLoop AmpLabsDatapath.DATA_TYPES df6)

/-- An input table with a null voltage cell, otherwise accepted by
`from_df`. -/
def exDfNull : List (String × Col) :=
  [("Test_Time (s)", ⟨Dtype.float64, [Cell.num 10 1]⟩),
   ("Cycle_Index", ⟨Dtype.float64, [Cell.num 1 1]⟩),
   ("Voltage (v)", ⟨Dtype.float64, [Cell.null]⟩),
   ("Date_Time", ⟨Dtype.obj, [Cell.str "2021-01-01T00:00:00.0Z"]⟩)]

/-- The normalized table `from_df` produces for `exDfNull`. -/
def exOutNull : List (String × Col) :=
  (AmpLabsDatapath.from_df exDfNull).getD []

/-- An input table whose cycle index holds the fractional value 1.5,
otherwise accepted by `from_df`. -/
def exDfFrac : List (String × Col) :=
  [("Test_Time (s)", ⟨Dtype.float64, [Cell.num 10 1]⟩),
   ("Cycle_Index", ⟨Dtype.float64, [Cell.num 3 2]⟩),
   ("Date_Time", ⟨Dtype.obj, [Cell.str "2021-01-01T00:00:00.0Z"]⟩)]

/-- The normalized table `from_df` produces for `exDfFrac`. -/
def exOutFrac : List (String × Col) :=
  (AmpLabsDatapath.from_df exDfFrac).getD []

/-- A well-formed input table (integral cycle index, no nulls). -/
def exDfGood : List (String × Col) :=
  [("Test_Time (s)", ⟨Dtype.float64, [Cell.num 10 1]⟩),
   ("Cycle_Index", ⟨Dtype.float64, [Cell.num 1 1]⟩),
   ("Voltage (v)", ⟨Dtype.float64, [Cell.num 37 10]⟩),
   ("Date_Time", ⟨Dtype.obj, [Cell.str "2021-01-01T00:00:00.0Z"]⟩)]

/-- The normalized table `from_df` produces for `exDfGood`. -/
def exOutGood : List (String × Col) :=
  (AmpLabsDatapath.from_df exDfGood).getD []

/-- A numeric cell that the `int32` cast leaves unchanged: an integer in the
signed 32-bit range (missing cells are also unchanged; textual cells would
make the cast raise). -/
def castSafeCell : Cell → Prop
  | .null => True
  | .num n d => d = 1 ∧ -(2 ^ 31) ≤ n ∧ n < 2 ^ 31
  | .str _ => False

instance : DecidablePred castSafeCell
  | .null => .isTrue trivial
  | .num n d =>
    inferInstanceAs (Decidable (d = 1 ∧ -(2 ^ 31) ≤ n ∧ n < 2 ^ 31))
  | .str _ => .isFalse id

/-- Cross-multiplication equality of two fraction representations: they
denote the same rational value. -/
def Veq (x y : Frac) : Prop := x.num * y.den = y.num * x.den

example : _convert_time "::.01" = .ok ("10.000", "ms") := by decide
example : _convert_time "03::" = .ok ("3.000", "h") := by decide
example : _convert_time "03:30:" = .ok ("210.000", "mn") := by decide
example : _convert_time "00:00:50" = .ok ("50.000", "s") := by decide

example : _convert_volts "0.1429" = .ok ("142.900", "mV") := by decide
example : _convert_volts "0.1429e3" = .ok ("142.900", "V") := by decide
example : _convert_volts "159.3624" = .ok ("159362.400", "mV") := by decide
example : _convert_volts "152.9" = .ok ("152.900", "V") := by decide
example : _convert_amps "0.1429" = .ok ("142.900", "mA") := by decide
example : _convert_amps "1.23" = .ok ("1.230", "A") := by decide
example : _convert_amps "152.9" = .ok ("152.900", "A") := by decide
example : _convert_amps "1.2e-4" = .ok ("120.000", "µA") := by decide
example : _convert_watts "0.1429" = .ok ("142.900", "mW") := by decide
example : _convert_watts "1.23" = .ok ("1.230", "W") := by decide
example : _convert_watts "152.9" = .ok ("152.900", "W") := by decide
example : _convert_watts "1.2e-5" = .ok ("12.000", "µW") := by decide
example : _convert_ohms "0.1429" = .ok ("142.900", "mOhms") := by decide
example : _convert_ohms "1.459e4" = .ok ("14.590", "kOhms") := by decide
example : _convert_ohms "152.9" = .ok ("152.900", "Ohms") := by decide
example : _convert_ohms "1.2e-4" = .ok ("120.000", "µOhms") := by decide

/-- **C5.** The volts unit converter, applied to the numeric string
`"0.1429"`, returns the value-unit pair `("142.900", "mV")`, and applied to
`"0.1429e3"` returns `("142.900", "V")`: the unit-ladder selection places a
scaled magnitude in the 100–999 range at the mV/V boundary, and the output
is always a fixed-point string with exactly 3 decimal digits. -/
theorem convert_volts_ladder_boundary :
    _convert_volts "0.1429" = .ok ("142.900", "mV") ∧
    _convert_volts "0.1429e3" = .ok ("142.900", "V") ∧
    ∀ w : Frac, ∃ k m : Nat, m < 1000 ∧
      format3 w = Nat.repr k ++ "." ++ pad3 m ∧ (pad3 m).length = 3 := by
  refine ⟨by decide, by decide, fun w => ?_⟩
  refine ⟨w.num * 1000 / w.den / 1000, w.num * 1000 / w.den % 1000,
    Nat.mod_lt _ (by norm_num), rfl, rfl⟩

/-- **C6.** In the duration converter, missing hour/minute/second fields
parse as zero (replacing an absent component by `"0"` never changes the
result), a component consisting of zero digits parses as zero, and in
particular `"::.01"` converts to `("10.000", "ms")`, `"03::"` to
`("3.000", "h")`, `"03:30:"` to `("210.000", "mn")`, and `"00:00:50"` to
`("50.000", "s")`. -/
theorem convert_time_missing_fields_zero :
    (∀ m s, timeValue [] m s = timeValue ['0'] m s) ∧
    (∀ h s, timeValue h [] s = timeValue h ['0'] s) ∧
    (∀ h m, timeValue h m [] = timeValue h m ['0']) ∧
    (∀ k, parseTimeField (List.replicate k '0') = .ok 0) ∧
    _convert_time "::.01" = .ok ("10.000", "ms") ∧
    _convert_time "03::" = .ok ("3.000", "h") ∧
    _convert_time "03:30:" = .ok ("210.000", "mn") ∧
    _convert_time "00:00:50" = .ok ("50.000", "s") := by
  have hrep : ∀ k, takeDigits (List.replicate k '0') = (List.replicate k 0, []) := by
    intro k
    induction k with
    | zero => rfl
    | succ n ih => simp [List.replicate, takeDigits, ih, digitVal?]
  have hzero : ∀ k, digitsToNat (List.replicate k 0) = 0 := by
    intro k
    induction k with
    | zero => rfl
    | succ n ih =>
      simpa [List.replicate, digitsToNat] using ih
  refine ⟨fun m s => rfl, fun h s => rfl, fun h m => rfl, fun k => ?_,
    by decide, by decide, by decide, by decide⟩
  simp [parseTimeField, hrep k, hzero k]

/-! ## Scale consistency of the unit converter (C7)

The two ladder loops are characterized by the exponent they accumulate, two
conversions of cross-multiplicatively equal values are related step by step,
and the `[1, 1000)` display-range checks pin the two runs one ladder rung
apart. -/

lemma ascend_char : ∀ (room j : Nat) (w : Frac), ∃ m, m ≤ room ∧
    ascend room j w = (j + m, ⟨w.num, w.den * 1000 ^ m⟩) := by
  intro room
  induction room with
  | zero => intro j w; exact ⟨0, Nat.le_refl 0, by simp [ascend]⟩
  | succ r ih =>
    intro j w
    by_cases h : 1000 * w.den ≤ w.num
    · obtain ⟨m, hm, he⟩ := ih (j + 1) w.over1000
      refine ⟨m + 1, by omega, ?_⟩
      rw [ascend, if_pos h, he]
      simp only [Frac.over1000]
      rw [show w.den * 1000 * 1000 ^ m = w.den * 1000 ^ (m + 1) from by ring,
        show j + 1 + m = j + (m + 1) from by omega]
    · exact ⟨0, Nat.zero_le _, by simp [ascend, h]⟩

lemma descend_char : ∀ (j : Nat) (w : Frac), ∃ m, m ≤ j ∧
    descend j w = (j - m, ⟨w.num * 1000 ^ m, w.den⟩) := by
  intro j
  induction j with
  | zero => intro w; exact ⟨0, Nat.le_refl 0, by simp [descend]⟩
  | succ r ih =>
    intro w
    by_cases h : w.num < w.den
    · obtain ⟨m, hm, he⟩ := ih w.times1000
      refine ⟨m + 1, by omega, ?_⟩
      rw [descend, if_pos h, he]
      simp only [Frac.times1000]
      rw [show w.num * 1000 * 1000 ^ m = w.num * 1000 ^ (m + 1) from by ring,
        show r + 1 - (m + 1) = r - m from by omega]
    · exact ⟨0, Nat.zero_le _, by simp [descend, h]⟩

lemma veq_cross1000 {x y : Frac} (h : Veq x y) :
    x.num * 1000 * y.den = y.num * 1000 * x.den := by
  calc x.num * 1000 * y.den = x.num * y.den * 1000 := by ring
    _ = y.num * x.den * 1000 := by rw [h]
    _ = y.num * 1000 * x.den := by ring

lemma veq_exact3 {x y : Frac} (h : Veq x y) (hx : 0 < x.den) (hy : 0 < y.den) :
    x.exact3 ↔ y.exact3 := by
  unfold Frac.exact3
  rw [← Nat.dvd_iff_mod_eq_zero, ← Nat.dvd_iff_mod_eq_zero]
  constructor
  · intro hd
    have h2 : x.den * y.den ∣ x.num * 1000 * y.den := mul_dvd_mul_right hd y.den
    rw [veq_cross1000 h] at h2
    have h5 : y.den * x.den ∣ y.num * 1000 * x.den := by rwa [Nat.mul_comm] at h2
    exact (Nat.mul_dvd_mul_iff_right hx).mp h5
  · intro hd
    have h2 : y.den * x.den ∣ y.num * 1000 * x.den := mul_dvd_mul_right hd x.den
    rw [← veq_cross1000 h] at h2
    have h5 : x.den * y.den ∣ x.num * 1000 * y.den := by rwa [Nat.mul_comm] at h2
    exact (Nat.mul_dvd_mul_iff_right hy).mp h5

lemma veq_format3 {x y : Frac} (h : Veq x y) (hx : 0 < x.den) (hy : 0 < y.den)
    (hex : x.exact3) : format3 x = format3 y := by
  have hey : y.exact3 := (veq_exact3 h hx hy).mp hex
  have hdx : x.den ∣ x.num * 1000 := Nat.dvd_iff_mod_eq_zero.mpr hex
  have hdy : y.den ∣ y.num * 1000 := Nat.dvd_iff_mod_eq_zero.mpr hey
  have hnx : x.num * 1000 / x.den * x.den = x.num * 1000 := Nat.div_mul_cancel hdx
  have hny : y.num * 1000 / y.den * y.den = y.num * 1000 := Nat.div_mul_cancel hdy
  have key : x.num * 1000 / x.den = y.num * 1000 / y.den := by
    have hmul : x.num * 1000 / x.den * (x.den * y.den) =
        y.num * 1000 / y.den * (x.den * y.den) := by
      calc x.num * 1000 / x.den * (x.den * y.den)
          = x.num * 1000 / x.den * x.den * y.den := by ring
        _ = x.num * 1000 * y.den := by rw [hnx]
        _ = y.num * 1000 * x.den := veq_cross1000 h
        _ = y.num * 1000 / y.den * y.den * x.den := by rw [hny]
        _ = y.num * 1000 / y.den * (x.den * y.den) := by ring
    exact Nat.eq_of_mul_eq_mul_right (Nat.mul_pos hx hy) hmul
  unfold format3
  rw [key]

lemma exactDescend_exact3 : ∀ (j : Nat) (w : Frac) (i : Nat) (v : Frac),
    exactDescend j w = some (i, v) → v.exact3 ∧ v.den = w.den := by
  intro j
  induction j with
  | zero =>
    intro w i v hw
    by_cases h : w.exact3
    · rw [exactDescend, if_pos h] at hw
      obtain ⟨rfl, rfl⟩ : i = 0 ∧ v = w := by
        simpa [eq_comm] using hw
      exact ⟨h, rfl⟩
    · rw [exactDescend, if_neg h] at hw
      cases hw
  | succ r ih =>
    intro w i v hw
    by_cases h : w.exact3
    · rw [exactDescend, if_pos h] at hw
      obtain ⟨rfl, rfl⟩ : i = r + 1 ∧ v = w := by
        simpa [eq_comm] using hw
      exact ⟨h, rfl⟩
    · rw [exactDescend, if_neg h] at hw
      obtain ⟨hv, hd⟩ := ih w.times1000 i v hw
      exact ⟨hv, by simpa [Frac.times1000] using hd⟩

lemma exactDescend_shift : ∀ (j : Nat) (w w' : Frac), Veq w w' →
    0 < w.den → 0 < w'.den → ∀ (i : Nat) (v : Frac),
    exactDescend j w = some (i, v) →
    ∃ v', exactDescend (j + 1) w' = some (i + 1, v') ∧ Veq v v' := by
  intro j
  induction j with
  | zero =>
    intro w w' hveq hw hw' i v heq
    by_cases h : w.exact3
    · rw [exactDescend, if_pos h] at heq
      obtain ⟨rfl, rfl⟩ : i = 0 ∧ v = w := by simpa [eq_comm] using heq
      have h' : w'.exact3 := (veq_exact3 hveq hw hw').mp h
      refine ⟨w', ?_, hveq⟩
      rw [exactDescend, if_pos h']
    · rw [exactDescend, if_neg h] at heq
      cases heq
  | succ r ih =>
    intro w w' hveq hw hw' i v heq
    by_cases h : w.exact3
    · rw [exactDescend, if_pos h] at heq
      obtain ⟨rfl, rfl⟩ : i = r + 1 ∧ v = w := by simpa [eq_comm] using heq
      have h' : w'.exact3 := (veq_exact3 hveq hw hw').mp h
      refine ⟨w', ?_, hveq⟩
      rw [exactDescend, if_pos h']
    · rw [exactDescend, if_neg h] at heq
      have h' : ¬ w'.exact3 := fun hc => h ((veq_exact3 hveq hw hw').mpr hc)
      have hveq2 : Veq w.times1000 w'.times1000 := by
        simp only [Veq, Frac.times1000]
        exact veq_cross1000 hveq
      obtain ⟨v', hv', hvv⟩ := ih w.times1000 w'.times1000 hveq2
        (by simpa [Frac.times1000] using hw) (by simpa [Frac.times1000] using hw') i v heq
      refine ⟨v', ?_, hvv⟩
      rw [exactDescend, if_neg h']
      exact hv'

set_option maxHeartbeats 1000000

lemma convertFrac_times1000 (units : List String) (base : Nat) (w : Frac)
    (d u d' u' : String)
    (h1 : convertFrac units base w = .ok (d, u))
    (h2 : convertFrac units base w.times1000 = .ok (d', u')) :
    d' = d ∧ ∃ i : Nat, u = units.getD i "" ∧ u' = units.getD (i + 1) "" := by
  unfold convertFrac at h1 h2
  obtain ⟨a1, ha1, e1⟩ := ascend_char (units.length - 1 - base) base w
  obtain ⟨A1, hA1, E1⟩ := ascend_char (units.length - 1 - base) base w.times1000
  rw [e1] at h1
  rw [E1] at h2
  simp only [Frac.times1000] at h2
  simp only at h1
  obtain ⟨d1, hd1, e2⟩ := descend_char (base + a1) (⟨w.num, w.den * 1000 ^ a1⟩ : Frac)
  obtain ⟨D1, hD1, E2⟩ := descend_char (base + A1) (⟨w.num * 1000, w.den * 1000 ^ A1⟩ : Frac)
  simp only at e2 E2
  rw [e2] at h1
  rw [E2] at h2
  simp only at h1 h2
  by_cases hr1 : (w.den * 1000 ^ a1 ≤ w.num * 1000 ^ d1 ∧
      w.num * 1000 ^ d1 < 1000 * (w.den * 1000 ^ a1))
  swap
  · rw [if_neg hr1] at h1; cases h1
  rw [if_pos hr1] at h1
  by_cases hr2 : (w.den * 1000 ^ A1 ≤ w.num * 1000 * 1000 ^ D1 ∧
      w.num * 1000 * 1000 ^ D1 < 1000 * (w.den * 1000 ^ A1))
  swap
  · rw [if_neg hr2] at h2; cases h2
  rw [if_pos hr2] at h2
  obtain ⟨R1a, R1b⟩ := hr1
  obtain ⟨R2a, R2b⟩ := hr2
  have hwd : 0 < w.den := by
    rcases Nat.eq_zero_or_pos w.den with h0 | h
    · exfalso; rw [h0] at R1b; simp at R1b
    · exact h
  have hpa : (0:Nat) < 1000 ^ a1 := pow_pos (by norm_num) _
  have hwn : 0 < w.num := by
    rcases Nat.eq_zero_or_pos w.num with h0 | h
    · exfalso
      rw [h0] at R1a
      simp only [Nat.zero_mul] at R1a
      have : w.den * 1000 ^ a1 = 0 := Nat.le_zero.mp R1a
      rcases Nat.mul_eq_zero.mp this with h | h <;> omega
    · exact h
  have c1 : w.num * 1000 ^ (d1 + A1) < w.num * 1000 ^ (1 + D1 + a1 + 1) := by
    calc w.num * 1000 ^ (d1 + A1) = w.num * 1000 ^ d1 * 1000 ^ A1 := by ring
      _ < 1000 * (w.den * 1000 ^ a1) * 1000 ^ A1 :=
          mul_lt_mul_of_pos_right R1b (pow_pos (by norm_num) _)
      _ = w.den * 1000 ^ A1 * 1000 ^ (a1 + 1) := by ring
      _ ≤ w.num * 1000 * 1000 ^ D1 * 1000 ^ (a1 + 1) :=
          mul_le_mul_of_nonneg_right R2a (Nat.zero_le _)
      _ = w.num * 1000 ^ (1 + D1 + a1 + 1) := by ring
  have c2 : w.num * 1000 ^ (1 + D1 + a1) < w.num * 1000 ^ (d1 + A1 + 1) := by
    calc w.num * 1000 ^ (1 + D1 + a1) = w.num * 1000 * 1000 ^ D1 * 1000 ^ a1 := by ring
      _ < 1000 * (w.den * 1000 ^ A1) * 1000 ^ a1 :=
          mul_lt_mul_of_pos_right R2b (pow_pos (by norm_num) _)
      _ = w.den * 1000 ^ a1 * 1000 ^ (A1 + 1) := by ring
      _ ≤ w.num * 1000 ^ d1 * 1000 ^ (A1 + 1) :=
          mul_le_mul_of_nonneg_right R1a (Nat.zero_le _)
      _ = w.num * 1000 ^ (d1 + A1 + 1) := by ring
  have p1 : (1000:Nat) ^ (d1 + A1) < 1000 ^ (1 + D1 + a1 + 1) :=
    Nat.lt_of_mul_lt_mul_left c1
  have p2 : (1000:Nat) ^ (1 + D1 + a1) < 1000 ^ (d1 + A1 + 1) :=
    Nat.lt_of_mul_lt_mul_left c2
  have q1 : d1 + A1 < 1 + D1 + a1 + 1 :=
    (pow_lt_pow_iff_right₀ (by norm_num : (1:Nat) < 1000)).mp p1
  have q2 : 1 + D1 + a1 < d1 + A1 + 1 :=
    (pow_lt_pow_iff_right₀ (by norm_num : (1:Nat) < 1000)).mp p2
  have hexp : d1 + A1 = 1 + D1 + a1 := by omega
  have hveq : Veq ⟨w.num * 1000 ^ d1, w.den * 1000 ^ a1⟩
      ⟨w.num * 1000 * 1000 ^ D1, w.den * 1000 ^ A1⟩ := by
    simp only [Veq]
    calc w.num * 1000 ^ d1 * (w.den * 1000 ^ A1)
        = w.num * w.den * 1000 ^ (d1 + A1) := by ring
      _ = w.num * w.den * 1000 ^ (1 + D1 + a1) := by rw [hexp]
      _ = w.num * 1000 * 1000 ^ D1 * (w.den * 1000 ^ a1) := by ring
  have hpos : (base + a1 - d1) + 1 = base + A1 - D1 := by omega
  cases heq : exactDescend (base + a1 - d1) (⟨w.num * 1000 ^ d1, w.den * 1000 ^ a1⟩ : Frac) with
  | none => rw [heq] at h1; cases h1
  | some iv =>
    obtain ⟨i, v⟩ := iv
    rw [heq] at h1
    cases hEq : exactDescend (base + A1 - D1)
        (⟨w.num * 1000 * 1000 ^ D1, w.den * 1000 ^ A1⟩ : Frac) with
    | none => rw [hEq] at h2; cases h2
    | some iv2 =>
      obtain ⟨i2, v2⟩ := iv2
      rw [hEq] at h2
      simp only [Except.ok.injEq, Prod.mk.injEq] at h1 h2
      obtain ⟨hd1', hu1⟩ := h1
      obtain ⟨hd2', hu2⟩ := h2
      have hden1 : 0 < (⟨w.num * 1000 ^ d1, w.den * 1000 ^ a1⟩ : Frac).den :=
        Nat.mul_pos hwd hpa
      have hden2 : 0 < (⟨w.num * 1000 * 1000 ^ D1, w.den * 1000 ^ A1⟩ : Frac).den :=
        Nat.mul_pos hwd (pow_pos (show (0:Nat) < 1000 by norm_num) A1)
      obtain ⟨v', hv', hvv⟩ := exactDescend_shift (base + a1 - d1) _ _ hveq
        hden1 hden2 i v heq
      rw [hpos] at hv'
      rw [hv'] at hEq
      obtain ⟨hi2, hv2⟩ : i + 1 = i2 ∧ v' = v2 := by simpa using hEq
      obtain ⟨hvex, hvden⟩ := exactDescend_exact3 (base + a1 - d1) _ i v heq
      have hvd : 0 < v.den := by
        rw [hvden]; exact Nat.mul_pos hwd hpa
      obtain ⟨hvex2, hvden2⟩ := exactDescend_exact3 (base + A1 - D1) _ (i + 1) v' hv'
      have hvd2 : 0 < v'.den := by
        rw [hvden2]
        exact Nat.mul_pos hwd (pow_pos (show (0:Nat) < 1000 by norm_num) A1)
      have hfmt : format3 v = format3 v' := veq_format3 hvv hvd hvd2 hvex
      refine ⟨?_, i, hu1.symm, ?_⟩
      · rw [← hd2', ← hv2, ← hfmt, hd1']
      · rw [← hu2, ← hi2]

/-- **C7 (counterexample).** Scale consistency fails as stated: for the time
converter, 3 hours and 3000 hours both render in hours with different digit
strings (the time ladder is not a uniform factor-1000 ladder), and at the top
of the volts ladder the thousandfold of a convertible value fails with a
`RangeError` instead of converting at all. -/
theorem convert_scale_claim_counterexample :
    _convert_time "03::" = .ok ("3.000", "h") ∧
    _convert_time "3000::" = .ok ("3000.000", "h") ∧
    _convert_volts "152.9" = .ok ("152.900", "V") ∧
    _convert_volts "152900" =
      .error (.RangeError "scaled magnitude outside the unit ladder") := by
  refine ⟨by decide, by decide, by decide, by decide⟩

/-- **C7 (amended).** For the four electrical quantities (volts, amps, watts,
ohms), whenever a value and its thousandfold both convert successfully, the
two conversions yield the same fixed-point digit string, with unit suffixes
exactly one ladder step apart. -/
theorem convert_scale_consistent (units : List String) (base : Nat) (w : Frac)
    (d u d' u' : String)
    (_hq : (units, base) ∈
      [(voltsUnits, 1), (ampsUnits, 2), (wattsUnits, 2), (ohmsUnits, 2)])
    (h1 : convertFrac units base w = .ok (d, u))
    (h2 : convertFrac units base w.times1000 = .ok (d', u')) :
    d' = d ∧ ∃ i : Nat, u = units.getD i "" ∧ u' = units.getD (i + 1) "" :=
  convertFrac_times1000 units base w d u d' u' h1 h2

/-- **C7 (witness).** The amended scale-consistency theorem applied to the
concrete voltage value 0.1429 V and its thousandfold 142.9 V. -/
theorem convert_scale_consistent_witness :
    "142.900" = "142.900" ∧
    ∃ i : Nat, "mV" = voltsUnits.getD i "" ∧ "V" = voltsUnits.getD (i + 1) "" :=
  convert_scale_consistent voltsUnits 1 ⟨1429, 10000⟩ "142.900" "mV" "142.900" "V"
    (by decide) (by decide) (by decide)

/-- **C3.** Converting the step with the vendor misspelling `Dischrge`
(StepMode `Current`, StepValue 1.0, a 30-second `StepTime` end condition and
two voltage end conditions) yields a sequence entry with `ctrl_type = "CC"`,
`ctrl1_val = "1.000"` with unit `A`, polarity `Discharge`, `lim_nb = 3`, and
a first limit of type `Time` with value `30.000` and unit `s`; the
misspelled token is recognized through the explicit alias table after
normalization. -/
theorem discharge_current_step_conversion :
    _convert_step_parts [dischargeStep] 1 testSeqNums 0 3 4 =
      .ok dischargeStepResult ∧
    dischargeStepResult.length = 1 ∧
    dischargeStepResult.headI.ctrl_type = "CC" ∧
    dischargeStepResult.headI.ctrl1_val = "1.000" ∧
    dischargeStepResult.headI.ctrl1_val_unit = "A" ∧
    dischargeStepResult.headI.charge_discharge = "Discharge" ∧
    dischargeStepResult.headI.lim_nb = 3 ∧
    dischargeStepResult.headI.lim1 = ⟨"Time", ">", "30.000", "s", 1⟩ ∧
    normToken dischargeStep.stepType = "dischrge" ∧
    alookup "dischrge" step_type_aliases = some "discharge" := by
  refine ⟨by decide, by decide, by decide, by decide, by decide, by decide,
    by decide, by decide, by decide, by decide⟩

/-- **C4.** Converting the whitespace-padded `Rest` step (empty StepValue,
two opposing voltage end conditions) yields a sequence entry with
`ctrl_type = "Rest"` — and the classifier returns the rest control type for
any step mode whatsoever — `lim_nb = 2`, both limits of type `Ecell` with
comparators `>` and `<` and values `4.400` and `2.500` volts. -/
theorem rest_step_conversion :
    _convert_step_parts [restStep] 1 testSeqNums 0 3 4 = .ok restStepResult ∧
    restStepResult.length = 1 ∧
    (∀ mode : String, classify "  Rest  " mode = .ok ⟨"Rest", "I", "1.00", "Charge"⟩) ∧
    restStepResult.headI.ctrl_type = "Rest" ∧
    restStepResult.headI.lim_nb = 2 ∧
    restStepResult.headI.lim1 = ⟨"Ecell", ">", "4.400", "V", 1⟩ ∧
    restStepResult.headI.lim2 = ⟨"Ecell", "<", "2.500", "V", 1⟩ := by
  refine ⟨by decide, by decide, fun mode => rfl, by decide, by decide,
    by decide, by decide⟩

/-! ## Step-to-sequence expansion (C2) -/

lemma mapE_ok_length {α β : Type} (f : α → Except ConvError β) :
    ∀ (l : List α) (ys : List β), mapE f l = .ok ys → ys.length = l.length := by
  intro l
  induction l with
  | nil =>
    intro ys h
    rw [mapE] at h
    cases h
    rfl
  | cons a t ih =>
    intro ys h
    rw [mapE] at h
    cases hfa : f a with
    | error e => rw [hfa] at h; cases h
    | ok b =>
      rw [hfa] at h
      cases hmt : mapE f t with
      | error e => rw [hmt] at h; cases h
      | ok bs =>
        rw [hmt] at h
        cases h
        simp [ih bs hmt]

lemma mapE_ok_mem {α β : Type} (f : α → Except ConvError β) :
    ∀ (l : List α) (ys : List β), mapE f l = .ok ys →
      ∀ y ∈ ys, ∃ a ∈ l, f a = .ok y := by
  intro l
  induction l with
  | nil =>
    intro ys h y hy
    rw [mapE] at h
    cases h
    cases hy
  | cons a t ih =>
    intro ys h y hy
    rw [mapE] at h
    cases hfa : f a with
    | error e => rw [hfa] at h; cases h
    | ok b =>
      rw [hfa] at h
      cases hmt : mapE f t with
      | error e => rw [hmt] at h; cases h
      | ok bs =>
        rw [hmt] at h
        cases h
        rcases List.mem_cons.mp hy with rfl | hmem
        · exact ⟨a, List.mem_cons_self a t, hfa⟩
        · obtain ⟨a', ha', hfa'⟩ := ih bs hmt y hmem
          exact ⟨a', List.mem_cons_of_mem a ha', hfa'⟩

lemma mapE_ok_forall {α β : Type} (f : α → Except ConvError β) :
    ∀ (l : List α) (ys : List β), mapE f l = .ok ys →
      ∀ a ∈ l, ∃ y ∈ ys, f a = .ok y := by
  intro l
  induction l with
  | nil => intro ys h a ha; cases ha
  | cons a0 t ih =>
    intro ys h a ha
    rw [mapE] at h
    cases hfa : f a0 with
    | error e => rw [hfa] at h; cases h
    | ok b =>
      rw [hfa] at h
      cases hmt : mapE f t with
      | error e => rw [hmt] at h; cases h
      | ok bs =>
        rw [hmt] at h
        cases h
        rcases List.mem_cons.mp ha with rfl | hmem
        · exact ⟨b, List.mem_cons_self b bs, hfa⟩
        · obtain ⟨y, hy, hfy⟩ := ih bs hmt a hmem
          exact ⟨y, List.mem_cons_of_mem b hy, hfy⟩

lemma translateEnd_seq (r : Nat → Nat) (e : EndEntry) (slot : LimSlot)
    (h : translateEnd r e = .ok slot) : slot.seq = r e.step := by
  simp only [translateEnd] at h
  repeat' split at h
  all_goals (cases h <;> rfl)

lemma getD_mem_or {α : Type} : ∀ (l : List α) (i : Nat) (d : α),
    l.getD i d ∈ l ∨ l.getD i d = d := by
  intro l
  induction l with
  | nil => intro i d; right; simp [List.getD]
  | cons a t ih =>
    intro i d
    cases i with
    | zero => left; simp [List.getD]
    | succ n =>
      rcases ih n d with hm | hd
      · left; simp only [List.getD_cons_succ]; exact List.mem_cons_of_mem a hm
      · right; simpa only [List.getD_cons_succ] using hd

lemma limSlots_seq (r : Nat → Nat) (n : Nat) (ends : List EndEntry)
    (l1 l2 l3 : LimSlot) (h : limSlots r n ends = .ok (l1, l2, l3)) :
    (∃ t, l1.seq = r t) ∧ (∃ t, l2.seq = r t) ∧ (∃ t, l3.seq = r t) := by
  unfold limSlots at h
  split at h
  · cases h
  · cases hm : mapE (translateEnd r) ends with
    | error e => rw [hm] at h; cases h
    | ok ls =>
      rw [hm] at h
      simp only [Except.ok.injEq, Prod.mk.injEq] at h
      obtain ⟨h1, h2, h3⟩ := h
      have key : ∀ i : Nat, ∃ t, (ls.getD i ⟨"", "", "", "", r (n + 1)⟩).seq = r t := by
        intro i
        rcases getD_mem_or ls i ⟨"", "", "", "", r (n + 1)⟩ with hmem | hdef
        · obtain ⟨e, _, hfe⟩ := mapE_ok_mem (translateEnd r) ends ls hm _ hmem
          exact ⟨e.step, translateEnd_seq r e _ hfe⟩
        · exact ⟨n + 1, by rw [hdef]⟩
      exact ⟨h1 ▸ key 0, h2 ▸ key 1, h3 ▸ key 2⟩

lemma convertStep_fields (r : Nat → Nat) (n ns : Nat) (st : TestStep)
    (s : SeqEntry) (h : convertStep r n ns st = .ok s) :
    s.Ns = ns ∧
    (∃ t, s.lim1.seq = r t) ∧ (∃ t, s.lim2.seq = r t) ∧ (∃ t, s.lim3.seq = r t) := by
  unfold convertStep at h
  cases hc : classify st.stepType st.stepMode with
  | error e => rw [hc] at h; cases h
  | ok spec =>
    rw [hc] at h
    simp only at h
    cases hv : ctrlValue spec st.stepMode st.stepValue with
    | error e => rw [hv] at h; cases h
    | ok c1 =>
      obtain ⟨c1v, c1u, c1vs⟩ := c1
      rw [hv] at h
      simp only at h
      cases hl : limSlots r n st.ends with
      | error e => rw [hl] at h; cases h
      | ok ltriple =>
        obtain ⟨l1, l2, l3⟩ := ltriple
        rw [hl] at h
        simp only at h
        cases hr : recSlots st.reports with
        | error e => rw [hr] at h; cases h
        | ok rpair =>
          obtain ⟨r1, r2⟩ := rpair
          rw [hr] at h
          simp only [Except.ok.injEq] at h
          subst h
          exact ⟨rfl, limSlots_seq r n st.ends l1 l2 l3 hl⟩

lemma alookup_mem {α β : Type} [DecidableEq α] (k : α) :
    ∀ (m : List (α × β)) (v : β), alookup k m = some v → (k, v) ∈ m := by
  intro m
  induction m with
  | nil => intro v h; cases h
  | cons p t ih =>
    intro v h
    obtain ⟨a, b⟩ := p
    rw [alookup] at h
    split at h
    · cases h
      rename_i heq
      subst heq
      exact List.mem_cons_self _ _
    · exact List.mem_cons_of_mem _ (ih v h)

lemma resolveGoto_spec (m : List (Nat × List Nat)) (lo hi es t : Nat) :
    resolveGoto m lo hi es t = 0 ∨
    ∃ k l, alookup k m = some l ∧ l.head? = some (resolveGoto m lo hi es t) := by
  unfold resolveGoto
  have hfb : ((alookup es m).bind List.head?).getD 0 = 0 ∨
      ∃ k l, alookup k m = some l ∧
        l.head? = some (((alookup es m).bind List.head?).getD 0) := by
    cases hes : alookup es m with
    | none => left; rfl
    | some l =>
      cases hh : l.head? with
      | none => left; simp [hes, hh]
      | some v =>
        right
        exact ⟨es, l, hes, by simp [hes, hh]⟩
  cases hb : (alookup t m).bind List.head? with
  | none => simpa [hb] using hfb
  | some s =>
    rcases Option.bind_eq_some.mp hb with ⟨l, hl, hhead⟩
    by_cases hrange : lo ≤ s ∧ s ≤ hi
    · right
      refine ⟨t, l, hl, ?_⟩
      simp [hrange, hhead]
    · simpa [hrange] using hfb

lemma buildSeqMap_key_ge : ∀ (steps : List TestStep) (s0 off k : Nat)
    (l : List Nat), alookup k (buildSeqMap s0 off steps) = some l → s0 ≤ k := by
  intro steps
  induction steps with
  | nil => intro s0 off k l h; cases h
  | cons s rest ih =>
    intro s0 off k l h
    rw [buildSeqMap, alookup] at h
    split at h
    · omega
    · have := ih (s0 + 1) (off + numSeqs s) k l h
      omega

lemma zip_replicate_mem (s : TestStep) : ∀ (blk : List Nat) (v : Nat),
    v ∈ blk → (s, v) ∈ (List.replicate blk.length s).zip blk := by
  intro blk
  induction blk with
  | nil => intro v hv; cases hv
  | cons b t ih =>
    intro v hv
    rcases List.mem_cons.mp hv with rfl | hm
    · exact List.mem_cons_self _ _
    · exact List.mem_cons_of_mem _ (ih v hm)

lemma numSeqs_pos (s : TestStep) : 0 < numSeqs s :=
  Nat.lt_of_lt_of_le Nat.zero_lt_one (le_max_left 1 s.repeats)

lemma expandSteps_sound :
    ∀ (steps : List TestStep) (stepNum off : Nat)
      (m : List (Nat × List Nat)) (lo hi es : Nat) (out : List SeqEntry),
      expandSteps m lo hi es stepNum steps = .ok out →
      (∀ k l, alookup k (buildSeqMap stepNum off steps) = some l →
        alookup k m = some l) →
      steps.length ≤ out.length ∧
      (∀ k l, alookup k (buildSeqMap stepNum off steps) = some l →
        ∀ v ∈ l, ∃ e ∈ out, e.Ns = v) ∧
      (∀ e ∈ out, ∃ n ns st,
        convertStep (resolveGoto m lo hi es) n ns st = .ok e) := by
  intro steps
  induction steps with
  | nil =>
    intro stepNum off m lo hi es out h hagree
    rw [expandSteps] at h
    cases h
    refine ⟨Nat.le_refl 0, ?_, ?_⟩
    · intro k l hkl; cases hkl
    · intro e he; cases he
  | cons s rest ih =>
    intro stepNum off m lo hi es out h hagree
    rw [expandSteps] at h
    cases hpart : _convert_step_parts (List.replicate (numSeqs s) s) stepNum m
        lo hi es with
    | error e => rw [hpart] at h; cases h
    | ok part =>
      rw [hpart] at h
      cases htail : expandSteps m lo hi es (stepNum + 1) rest with
      | error e => rw [htail] at h; cases h
      | ok tail =>
        rw [htail] at h
        cases h
        have hm_self : alookup stepNum m =
            some ((List.range (numSeqs s)).map (fun k => off + k)) := by
          apply hagree
          rw [buildSeqMap, alookup]
          simp
        have hagree2 : ∀ k l,
            alookup k (buildSeqMap (stepNum + 1) (off + numSeqs s) rest) = some l →
            alookup k m = some l := by
          intro k l hkl
          have hk := buildSeqMap_key_ge rest (stepNum + 1) (off + numSeqs s) k l hkl
          apply hagree
          rw [buildSeqMap, alookup]
          split
          · omega
          · exact hkl
        obtain ⟨ihlen, ihcov, ihmem⟩ :=
          ih (stepNum + 1) (off + numSeqs s) m lo hi es tail htail hagree2
        have hblk : ((List.range (numSeqs s)).map (fun k => off + k)).length =
            numSeqs s := by simp
        have hpart' : mapE
            (fun p => convertStep (resolveGoto m lo hi es) stepNum p.2 p.1)
            ((List.replicate (numSeqs s) s).zip
              ((List.range (numSeqs s)).map (fun k => off + k))) = .ok part := by
          rw [_convert_step_parts, hm_self] at hpart
          exact hpart
        have hplen : part.length = numSeqs s := by
          have := mapE_ok_length _ _ _ hpart'
          rw [this]
          simp
        refine ⟨?_, ?_, ?_⟩
        · have := numSeqs_pos s
          simp only [List.length_cons, List.length_append]
          omega
        · intro k l hkl v hv
          rw [buildSeqMap, alookup] at hkl
          split at hkl
          · cases hkl
            have hpair : (s, v) ∈ (List.replicate (numSeqs s) s).zip
                ((List.range (numSeqs s)).map (fun k => off + k)) := by
              have := zip_replicate_mem s
                ((List.range (numSeqs s)).map (fun k => off + k)) v hv
              rwa [hblk] at this
            obtain ⟨y, hy, hfy⟩ := mapE_ok_forall _ _ _ hpart' _ hpair
            refine ⟨y, List.mem_append_left _ hy, ?_⟩
            exact (convertStep_fields _ _ _ _ _ hfy).1
          · obtain ⟨e, he, hNs⟩ := ihcov k l hkl v hv
            exact ⟨e, List.mem_append_right _ he, hNs⟩
        · intro e he
          rcases List.mem_append.mp he with hp | ht
          · obtain ⟨p, _, hfp⟩ := mapE_ok_mem _ _ _ hpart' e hp
            exact ⟨stepNum, p.2, p.1, hfp⟩
          · exact ihmem e ht

/-- **C2.** For every ordered list of procedure steps that the expander
converts successfully, the output contains at least as many sequence entries
as there are input steps (each step expands into one or more entries), and
every limit slot's goto-sequence reference (`lim_seq`) of every emitted
entry equals the `Ns` of an entry present in the output list. -/
theorem expander_length_and_goto_closed (steps : List TestStep)
    (out : List SeqEntry) (h : expandProcedure steps = .ok out) :
    steps.length ≤ out.length ∧
    ∀ e ∈ out, ∀ slot ∈ [e.lim1, e.lim2, e.lim3],
      ∃ e2 ∈ out, e2.Ns = slot.seq := by
  unfold expandProcedure at h
  obtain ⟨hlen, hcov, hmem⟩ := expandSteps_sound steps 1 0 (seqNumsOf steps) 0
    (totalSeqs steps - 1) steps.length out h (fun k l hkl => hkl)
  refine ⟨hlen, ?_⟩
  intro e he slot hslot
  obtain ⟨n, ns, st, hconv⟩ := hmem e he
  obtain ⟨_, hs1, hs2, hs3⟩ := convertStep_fields _ n ns st e hconv
  have hst : ∃ t, slot.seq =
      resolveGoto (seqNumsOf steps) 0 (totalSeqs steps - 1) steps.length t := by
    simp only [List.mem_cons, List.not_mem_nil, or_false] at hslot
    rcases hslot with h1 | h1 | h1
    · obtain ⟨t, ht⟩ := hs1; exact ⟨t, h1 ▸ ht⟩
    · obtain ⟨t, ht⟩ := hs2; exact ⟨t, h1 ▸ ht⟩
    · obtain ⟨t, ht⟩ := hs3; exact ⟨t, h1 ▸ ht⟩
  obtain ⟨t, hts⟩ := hst
  rcases resolveGoto_spec (seqNumsOf steps) 0 (totalSeqs steps - 1)
      steps.length t with h0 | ⟨k, l, hkl, hhead⟩
  · cases steps with
    | nil =>
      rw [expandSteps] at h
      cases h
      cases he
    | cons s rest =>
      have hk1 : alookup 1 (seqNumsOf (s :: rest)) =
          some ((List.range (numSeqs s)).map (fun k => 0 + k)) := by
        rw [seqNumsOf, buildSeqMap, alookup]
        simp
      have h0mem : (0 : Nat) ∈ (List.range (numSeqs s)).map (fun k => 0 + k) := by
        simp only [List.mem_map]
        exact ⟨0, List.mem_range.mpr (numSeqs_pos s), rfl⟩
      obtain ⟨e2, he2, hNs⟩ := hcov 1 _ hk1 0 h0mem
      exact ⟨e2, he2, by rw [hNs, hts, h0]⟩
  · have hv : resolveGoto (seqNumsOf steps) 0 (totalSeqs steps - 1)
        steps.length t ∈ l := List.mem_of_mem_head? hhead
    obtain ⟨e2, he2, hNs⟩ := hcov k l hkl _ hv
    exact ⟨e2, he2, by rw [hNs, hts]⟩

/-- **C2 (witness).** The expander theorem applied to the concrete two-step
procedure made of the rest step and the discharge step. -/
theorem expander_length_and_goto_closed_witness :
    ([restStep, dischargeStep] : List TestStep).length ≤ twoStepResult.length :=
  (expander_length_and_goto_closed [restStep, dischargeStep] twoStepResult
    (by decide)).1

/-! ## Unsupported steps and all-or-nothing conversion (C8) -/

lemma expandSteps_all_converted :
    ∀ (steps : List TestStep) (stepNum off : Nat)
      (m : List (Nat × List Nat)) (lo hi es : Nat) (out : List SeqEntry),
      expandSteps m lo hi es stepNum steps = .ok out →
      (∀ k l, alookup k (buildSeqMap stepNum off steps) = some l →
        alookup k m = some l) →
      ∀ st ∈ steps, ∃ (n ns : Nat) (s : SeqEntry),
        convertStep (resolveGoto m lo hi es) n ns st = .ok s := by
  intro steps
  induction steps with
  | nil => intro stepNum off m lo hi es out h hagree st hst; cases hst
  | cons s rest ih =>
    intro stepNum off m lo hi es out h hagree st hst
    rw [expandSteps] at h
    cases hpart : _convert_step_parts (List.replicate (numSeqs s) s) stepNum m
        lo hi es with
    | error e => rw [hpart] at h; cases h
    | ok part =>
      rw [hpart] at h
      cases htail : expandSteps m lo hi es (stepNum + 1) rest with
      | error e => rw [htail] at h; cases h
      | ok tail =>
        have hm_self : alookup stepNum m =
            some ((List.range (numSeqs s)).map (fun k => off + k)) := by
          apply hagree
          rw [buildSeqMap, alookup]
          simp
        have hagree2 : ∀ k l,
            alookup k (buildSeqMap (stepNum + 1) (off + numSeqs s) rest) = some l →
            alookup k m = some l := by
          intro k l hkl
          have hk := buildSeqMap_key_ge rest (stepNum + 1) (off + numSeqs s) k l hkl
          apply hagree
          rw [buildSeqMap, alookup]
          split
          · omega
          · exact hkl
        rcases List.mem_cons.mp hst with rfl | hmem
        · have hpart' : mapE
              (fun p => convertStep (resolveGoto m lo hi es) stepNum p.2 p.1)
              ((List.replicate (numSeqs st) st).zip
                ((List.range (numSeqs st)).map (fun k => off + k))) = .ok part := by
            rw [_convert_step_parts, hm_self] at hpart
            exact hpart
          have hvmem : off + 0 ∈ (List.range (numSeqs st)).map (fun k => off + k) := by
            simp only [List.mem_map]
            exact ⟨0, List.mem_range.mpr (numSeqs_pos st), rfl⟩
          have hpair : (st, off + 0) ∈ (List.replicate (numSeqs st) st).zip
              ((List.range (numSeqs st)).map (fun k => off + k)) := by
            have := zip_replicate_mem st
              ((List.range (numSeqs st)).map (fun k => off + k)) (off + 0) hvmem
            have hlen : ((List.range (numSeqs st)).map
                (fun k => off + k)).length = numSeqs st := by simp
            rwa [hlen] at this
          obtain ⟨y, _, hfy⟩ := mapE_ok_forall _ _ _ hpart' _ hpair
          exact ⟨stepNum, off + 0, y, hfy⟩
        · exact ih (stepNum + 1) (off + numSeqs s) m lo hi es tail htail hagree2
            st hmem

/-- **C8.** A (step type, step mode) pair that is neither the rest special
case nor in the classifier's supported table fails with an
`UnsupportedStepError` — never a silent default — and conversion is
all-or-nothing: whenever the whole-procedure expansion returns a sequence
table, every input step was converted successfully; a failing step (for any
of the error kinds, since the fail-fast map aborts on the first error of any
kind) leaves the result an `error` carrying no partial table. -/
theorem unsupported_step_and_atomicity :
    (∀ stepType stepMode : String,
      applyAliases (normToken stepType) ≠ "rest" →
      alookup (applyAliases (normToken stepType), normToken stepMode)
        ctrl_table = none →
      classify stepType stepMode =
        .error (.UnsupportedStepError "unrecognized step type/mode pair")) ∧
    (∀ (steps : List TestStep) (out : List SeqEntry),
      expandProcedure steps = .ok out →
      ∀ st ∈ steps, ∃ (n ns : Nat) (s : SeqEntry),
        convertStep
          (resolveGoto (seqNumsOf steps) 0 (totalSeqs steps - 1) steps.length)
          n ns st = .ok s) := by
  constructor
  · intro stepType stepMode h1 h2
    rw [classify]
    simp only [h1, if_false, h2]
  · intro steps out h st hst
    exact expandSteps_all_converted steps 1 0 (seqNumsOf steps) 0
      (totalSeqs steps - 1) steps.length out h (fun k l hkl => hkl) st hst

/-- **C8 (witness).** The unsupported-step branch applied to the concrete
pair (`"Goto"`, `"Current "`), which is absent from the supported table. -/
theorem unsupported_step_and_atomicity_witness :
    classify "Goto" "Current " =
      .error (.UnsupportedStepError "unrecognized step type/mode pair") :=
  unsupported_step_and_atomicity.1 "Goto" "Current " (by decide) (by decide)

/-! ## Cycle-advancement rule serialization (C1) -/

example :
    CycleAdvancementRulesSerializer.parse_json
      (CycleAdvancementRulesSerializer.json
        ⟨2, true, 1, 1, [((2, 5), 1), ((14, 17), 1)],
         [((72, 71), 1), ((72, 75), 1)]⟩) =
      some ⟨2, true, 1, 1, [((2, 5), 1), ((14, 17), 1)],
        [((72, 71), 1), ((72, 75), 1)]⟩ := by decide

lemma foldr_eq_valLE : ∀ l : List Nat,
    List.foldr (fun d acc => acc * 10 + d) 0 l = valLE l := by
  intro l
  induction l with
  | nil => rfl
  | cons d t ih => rw [List.foldr_cons, ih, valLE]; ring

lemma valLE_digitsAux : ∀ (fuel n : Nat), n ≤ fuel → valLE (digitsAux fuel n) = n := by
  intro fuel
  induction fuel with
  | zero => intro n h; interval_cases n; rfl
  | succ f ih =>
    intro n h
    cases n with
    | zero => rfl
    | succ m =>
      rw [digitsAux, valLE, ih ((m + 1) / 10) (by omega)]
      omega

lemma digitsAux_lt : ∀ (fuel n : Nat), ∀ d ∈ digitsAux fuel n, d < 10 := by
  intro fuel
  induction fuel with
  | zero => intro n d hd; cases hd
  | succ f ih =>
    intro n d hd
    cases n with
    | zero => cases hd
    | succ m =>
      rw [digitsAux] at hd
      rcases List.mem_cons.mp hd with rfl | hm
      · exact Nat.mod_lt _ (by norm_num)
      · exact ih _ d hm

lemma digitsToNat_digitsOf (n : Nat) : digitsToNat (digitsOf n) = n := by
  rw [digitsOf]
  split
  · subst n; rfl
  · rw [digitsToNat, List.foldl_reverse]
    have : (fun (x : Nat) (y : Nat) => y * 10 + x) =
        fun d acc => acc * 10 + d := rfl
    rw [show List.foldr (fun (x : Nat) (y : Nat) => y * 10 + x) 0 (digitsAux n n) =
        valLE (digitsAux n n) from foldr_eq_valLE (digitsAux n n)]
    exact valLE_digitsAux n n (Nat.le_refl n)

lemma digitsOf_lt (n : Nat) : ∀ d ∈ digitsOf n, d < 10 := by
  intro d hd
  rw [digitsOf] at hd
  split at hd
  · simp only [List.mem_singleton] at hd; omega
  · exact digitsAux_lt n n d (List.mem_reverse.mp hd)

lemma digitVal?_digitToChar (d : Nat) (h : d < 10) :
    digitVal? (digitToChar d) = some d := by
  interval_cases d <;> decide

lemma takeDigits_map_append :
    ∀ (l : List Nat), (∀ d ∈ l, d < 10) → ∀ (c : Char), digitVal? c = none →
      ∀ rest, takeDigits (l.map digitToChar ++ c :: rest) = (l, c :: rest) := by
  intro l
  induction l with
  | nil =>
    intro _ c hc rest
    rw [List.map_nil, List.nil_append, takeDigits, hc]
  | cons d t ih =>
    intro hlt c hc rest
    rw [List.map_cons, List.cons_append, takeDigits,
      digitVal?_digitToChar d (hlt d (List.mem_cons_self d t)),
      ih (fun x hx => hlt x (List.mem_cons_of_mem d hx)) c hc rest]

lemma parseNat_round (n : Nat) (c : Char) (hc : digitVal? c = none)
    (rest : List Char) : parseNat (natChars n ++ c :: rest) = some (n, c :: rest) := by
  rw [parseNat, natChars, takeDigits_map_append (digitsOf n) (digitsOf_lt n) c hc rest]
  have hne : digitsOf n ≠ [] := by
    rw [digitsOf]
    split
    · simp
    · rename_i h
      intro hcon
      have := valLE_digitsAux n n (Nat.le_refl n)
      rw [show digitsAux n n = [] from by
        have := congrArg List.reverse hcon
        simpa using hcon] at this
      exact h (by simpa [valLE] using this.symm)
  cases hd : digitsOf n with
  | nil => exact absurd hd hne
  | cons a t =>
    simp only []
    rw [← hd, digitsToNat_digitsOf n]

lemma parseEntry_round (e : (Nat × Nat) × Nat) (rest : List Char) :
    parseEntry (entryChars e ++ rest) = some (e, rest) := by
  rw [entryChars]
  simp only [List.cons_append, List.append_assoc, List.singleton_append]
  rw [parseEntry]
  rw [parseNat_round e.1.1 ',' (by decide)]
  simp only []
  rw [parseNat_round e.1.2 ',' (by decide)]
  simp only []
  rw [parseNat_round e.2 ')' (by decide)]
  simp only [List.nil_append]

lemma parseEntries_round : ∀ (l : List ((Nat × Nat) × Nat)) (rest : List Char),
    parseEntries l.length (entriesChars l ++ rest) = some (l, rest) := by
  intro l
  induction l with
  | nil => intro rest; rfl
  | cons e t ih =>
    intro rest
    rw [List.length_cons, parseEntries]
    rw [show entriesChars (e :: t) = entryChars e ++ entriesChars t from by
      rw [entriesChars, List.map_cons, List.flatten_cons]; rfl]
    rw [List.append_assoc, parseEntry_round e (entriesChars t ++ rest)]
    simp only []
    rw [ih rest]

lemma parseTrans_round (l : List ((Nat × Nat) × Nat)) (rest : List Char) :
    parseTrans (transChars l ++ rest) = some (l, rest) := by
  rw [transChars]
  simp only [List.append_assoc, List.cons_append]
  rw [parseTrans, parseNat_round l.length ':' (by decide)]
  simp only []
  exact parseEntries_round l rest

/-- **C1.** For every `CycleAdvancementRules` value — any technique count,
loop flag, lifecycle increments and any finite transition mappings — parsing
the serialized textual form reconstructs an equal value, field by field and
with deep equality of both transition mappings:
`parse_json (json rules) = some rules`. -/
theorem cycle_rules_roundtrip (r : CycleAdvancementRules) :
    CycleAdvancementRulesSerializer.parse_json
      (CycleAdvancementRulesSerializer.json r) = some r := by
  obtain ⟨tn, loop, st, tl, seqtr, dbgtr⟩ := r
  rw [CycleAdvancementRulesSerializer.parse_json,
    CycleAdvancementRulesSerializer.json]
  show parseRules (serializeChars _) = _
  rw [serializeChars]
  simp only []
  rw [parseRules, parseNat_round tn ';' (by decide)]
  simp only []
  cases loop with
  | true =>
    rw [show boolChar true = 't' from rfl]
    rw [show parseBool ('t' :: (';' :: (natChars st ++
      ';' :: (natChars tl ++
        ';' :: (transChars seqtr ++ ';' :: transChars dbgtr))))) =
      some (true, ';' :: (natChars st ++
        ';' :: (natChars tl ++
          ';' :: (transChars seqtr ++ ';' :: transChars dbgtr)))) from rfl]
    simp only []
    rw [parseNat_round st ';' (by decide)]
    simp only []
    rw [parseNat_round tl ';' (by decide)]
    simp only []
    rw [parseTrans_round seqtr (';' :: transChars dbgtr)]
    simp only []
    rw [show transChars dbgtr = transChars dbgtr ++ [] from by simp]
    rw [parseTrans_round dbgtr []]
  | false =>
    rw [show boolChar false = 'f' from rfl]
    rw [show parseBool ('f' :: (';' :: (natChars st ++
      ';' :: (natChars tl ++
        ';' :: (transChars seqtr ++ ';' :: transChars dbgtr))))) =
      some (false, ';' :: (natChars st ++
        ';' :: (natChars tl ++
          ';' :: (transChars seqtr ++ ';' :: transChars dbgtr)))) from rfl]
    simp only []
    rw [parseNat_round st ';' (by decide)]
    simp only []
    rw [parseNat_round tl ';' (by decide)]
    simp only []
    rw [parseTrans_round seqtr (';' :: transChars dbgtr)]
    simp only []
    rw [show transChars dbgtr = transChars dbgtr ++ [] from by simp]
    rw [parseTrans_round dbgtr []]

example : (AmpLabsDatapath.from_df exDfNull).isSome = true := by decide
example : alookup "voltage" exOutNull = some ⟨Dtype.float64, [Cell.null]⟩ := by decide
example : alookup "voltage" AmpLabsDatapath.DATA_TYPES = some Dtype.float32 := by decide
example : alookup "step_index" exOutFrac = some ⟨Dtype.float64, [Cell.num 3 2]⟩ := by decide
example : alookup "cycle_index" exOutFrac = some ⟨Dtype.int32, [Cell.num 1 1]⟩ := by decide
example : alookup "date_time_iso" exOutGood =
    some ⟨Dtype.obj, [Cell.str "2021-01-01T00:00:00"]⟩ := by decide
example : alookup "voltage" exOutGood = some ⟨Dtype.float32, [Cell.num 37 10]⟩ := by decide
example : alookup "test_time" exOutGood = some ⟨Dtype.float64, [Cell.num 10 1]⟩ := by decide
example : alookup "date_time" exOutGood =
    some ⟨Dtype.float32, [Cell.num 1609459200000000 1000000]⟩ := by decide

lemma alookup_isSome_of_mem {α β : Type} [DecidableEq α] (k : α) :
    ∀ (l : List (α × β)) (v : β), (k, v) ∈ l → ∃ v', alookup k l = some v' := by
  intro l
  induction l with
  | nil => intro v h; cases h
  | cons p t ih =>
    intro v h
    obtain ⟨a, b⟩ := p
    rw [alookup]
    by_cases hk : a = k
    · exact ⟨b, by rw [if_pos hk]⟩
    · rcases List.mem_cons.mp h with heq | hm
      · cases heq; exact absurd rfl hk
      · rw [if_neg hk]; exact ih v hm

lemma alookup_of_mem_nodup {α β : Type} [DecidableEq α] (k : α) :
    ∀ (l : List (α × β)) (v : β), (l.map Prod.fst).Nodup → (k, v) ∈ l →
      alookup k l = some v := by
  intro l
  induction l with
  | nil => intro v _ h; cases h
  | cons p t ih =>
    intro v hnd h
    obtain ⟨a, b⟩ := p
    rw [List.map_cons, List.nodup_cons] at hnd
    rw [alookup]
    rcases List.mem_cons.mp h with heq | hm
    · cases heq
      rw [if_pos rfl]
    · have hak : a ≠ k := by
        intro hak
        subst hak
        exact hnd.1 (List.mem_map.mpr ⟨(a, v), hm, rfl⟩)
      rw [if_neg hak]
      exact ih v hnd.2 hm

lemma setCol_self : ∀ (l : List (String × Col)) (n : String) (c : Col),
    alookup n (setCol l n c) = some c := by
  intro l
  induction l with
  | nil => intro n c; rw [setCol, alookup, if_pos rfl]
  | cons p t ih =>
    intro n c
    obtain ⟨a, b⟩ := p
    rw [setCol]
    split
    · rw [alookup, if_pos rfl]
    · rw [alookup]
      split
      · rename_i hcon; exact absurd hcon (by assumption)
      · exact ih n c

lemma setCol_other : ∀ (l : List (String × Col)) (n k : String) (c : Col),
    k ≠ n → alookup k (setCol l n c) = alookup k l := by
  intro l
  induction l with
  | nil =>
    intro n k c hk
    show (if n = k then some c else alookup k ([] : List (String × Col))) =
      alookup k ([] : List (String × Col))
    rw [if_neg (fun h => hk h.symm)]
  | cons p t ih =>
    intro n k c hk
    obtain ⟨a, b⟩ := p
    rw [setCol]
    split
    · rename_i han
      subst han
      rw [alookup, alookup, if_neg (fun h => hk h.symm), if_neg (fun h => hk h.symm)]
    · rw [alookup, alookup]
      split
      · rfl
      · exact ih n k c hk

lemma castLoop_other : ∀ (entries : List (String × Dtype))
    (df : List (String × Col)) (k : String),
    (∀ p ∈ entries, p.1 ≠ k) →
    alookup k (castLoop entries df) = alookup k df := by
  intro entries
  induction entries with
  | nil => intro df k _; rfl
  | cons p rest ih =>
    intro df k hne
    obtain ⟨k0, t0⟩ := p
    rw [castLoop]
    have hk0 : k0 ≠ k := hne (k0, t0) (List.mem_cons_self _ _)
    have hrest : ∀ p ∈ rest, p.1 ≠ k :=
      fun p hp => hne p (List.mem_cons_of_mem _ hp)
    rw [ih _ k hrest]
    split
    · split
      · rfl
      · exact setCol_other df k0 k _ (fun h => hk0 h.symm)
    · rfl

lemma castLoop_presence : ∀ (entries : List (String × Dtype))
    (df : List (String × Col)) (k : String) (c : Col),
    alookup k df = some c → ∃ c', alookup k (castLoop entries df) = some c' := by
  intro entries
  induction entries with
  | nil => intro df k c h; exact ⟨c, h⟩
  | cons p rest ih =>
    intro df k c h
    obtain ⟨k0, t0⟩ := p
    rw [castLoop]
    split
    · rename_i c0 heq0
      split
      · exact ih df k c h
      · by_cases hk : k = k0
        · subst hk
          exact ih _ k _ (setCol_self df k (astype t0 c0))
        · exact ih _ k c (by rw [setCol_other df k0 k _ hk]; exact h)
    · exact ih df k c h

lemma castCell_null_iff (ty : Dtype) (c : Cell) :
    castCell ty c = Cell.null ↔ c = Cell.null := by
  cases c <;> cases ty <;> simp [castCell]

lemma hasNullCol_astype (ty : Dtype) (c : Col) :
    hasNullCol (astype ty c) = hasNullCol c := by
  rw [hasNullCol, hasNullCol, astype]
  simp only [List.any_map]
  congr 1
  funext x
  cases x with
  | null => cases ty <;> rfl
  | num n d => cases ty <;> rfl
  | str s0 => cases ty <;> rfl

lemma castLoop_dtype : ∀ (entries : List (String × Dtype))
    (df : List (String × Col)) (k : String) (ty : Dtype),
    (entries.map Prod.fst).Nodup → (k, ty) ∈ entries →
    ∀ col, alookup k (castLoop entries df) = some col →
      hasNullCol col = false → col.dtype = ty := by
  intro entries
  induction entries with
  | nil => intro df k ty _ hm; cases hm
  | cons p rest ih =>
    intro df k ty hnd hm col hlk hnull
    obtain ⟨k0, t0⟩ := p
    rw [List.map_cons, List.nodup_cons] at hnd
    rw [castLoop] at hlk
    rcases List.mem_cons.mp hm with heq | hmrest
    · cases heq
      have hothers : ∀ p ∈ rest, p.1 ≠ k :=
        fun p hp hcon => hnd.1 (hcon ▸ List.mem_map.mpr ⟨p, hp, rfl⟩)
      rw [castLoop_other rest _ k hothers] at hlk
      revert hlk
      split
      · rename_i c0 heq0
        split
        · rename_i hnul
          intro hlk
          rw [hlk] at heq0
          cases heq0
          rw [hnul] at hnull
          cases hnull
        · intro hlk
          rw [setCol_self] at hlk
          cases hlk
          rfl
      · rename_i heq0
        intro hlk
        rw [hlk] at heq0
        cases heq0
    · have hk0 : k ≠ k0 := by
        intro hcon
        subst hcon
        exact hnd.1 (List.mem_map.mpr ⟨(k, ty), hmrest, rfl⟩)
      exact ih _ k ty hnd.2 hmrest col hlk hnull

lemma castLoop_shape : ∀ (entries : List (String × Dtype))
    (df : List (String × Col)) (k : String),
    (entries.map Prod.fst).Nodup →
    ∀ col, alookup k (castLoop entries df) = some col →
      alookup k df = some col ∨
      ∃ ty c0, (k, ty) ∈ entries ∧ alookup k df = some c0 ∧
        hasNullCol c0 = false ∧ col = astype ty c0 := by
  intro entries
  induction entries with
  | nil => intro df k _ col h; exact Or.inl h
  | cons p rest ih =>
    intro df k hnd col hlk
    obtain ⟨k0, t0⟩ := p
    rw [List.map_cons, List.nodup_cons] at hnd
    rw [castLoop] at hlk
    by_cases hk : k = k0
    · subst hk
      have hothers : ∀ p ∈ rest, p.1 ≠ k :=
        fun p hp hcon => hnd.1 (hcon ▸ List.mem_map.mpr ⟨p, hp, rfl⟩)
      rcases ih _ k hnd.2 col hlk with hleft | ⟨ty, c0, hmem, _, _, _⟩
      · revert hleft
        split
        · rename_i c0 heq0
          split
          · exact fun hleft => Or.inl hleft
          · intro hleft
            rw [setCol_self] at hleft
            cases hleft
            exact Or.inr ⟨t0, c0, List.mem_cons_self _ _, heq0, by
              rename_i hnul
              simpa using hnul, rfl⟩
        · exact fun hleft => Or.inl hleft
      · exact absurd (List.mem_map.mpr ⟨(k, ty), hmem, rfl⟩) hnd.1
    · have hsame : ∀ (df1 : List (String × Col)),
          alookup k (castLoop rest df1) = some col →
          alookup k df1 = some col ∨
          ∃ ty c0, (k, ty) ∈ rest ∧ alookup k df1 = some c0 ∧
            hasNullCol c0 = false ∧ col = astype ty c0 :=
        fun df1 => ih df1 k hnd.2 col
      rcases hsame _ hlk with hleft | ⟨ty, c0, hmem, hlk0, hnul, hcast⟩
      · revert hleft
        split
        · split
          · exact fun hleft => Or.inl hleft
          · intro hleft
            rw [setCol_other _ _ _ _ hk] at hleft
            exact Or.inl hleft
        · exact fun hleft => Or.inl hleft
      · revert hlk0
        split
        · split
          · exact fun hlk0 =>
              Or.inr ⟨ty, c0, List.mem_cons_of_mem _ hmem, hlk0, hnul, hcast⟩
          · intro hlk0
            rw [setCol_other _ _ _ _ hk] at hlk0
            exact Or.inr ⟨ty, c0, List.mem_cons_of_mem _ hmem, hlk0, hnul, hcast⟩
        · exact fun hlk0 =>
            Or.inr ⟨ty, c0, List.mem_cons_of_mem _ hmem, hlk0, hnul, hcast⟩

/-- **C9 (amended).** For every input table `from_df` accepts: every raw
column named in `COLUMN_MAPPING` appears in the output under its canonical
name; every `DATA_TYPES` column of the output that is free of nulls holds
its declared dtype (columns containing nulls keep their original dtype, as
the source's null guard skips them); and the `date_time_iso` column holds
the ISO-8601 renderings of the input timestamps parsed with the vendor
format `%Y-%m-%dT%H:%M:%S.%fZ`. -/
theorem from_df_normalized (df out : List (String × Col))
    (h : AmpLabsDatapath.from_df df = some out) :
    (∀ raw canon, (raw, canon) ∈ AmpLabsDatapath.COLUMN_MAPPING →
      (∃ c, alookup raw df = some c) → ∃ c', alookup canon out = some c') ∧
    (∀ canon ty, (canon, ty) ∈ AmpLabsDatapath.DATA_TYPES →
      ∀ col, alookup canon out = some col → hasNullCol col = false →
        col.dtype = ty) ∧
    (∃ dts : List PyDateTime,
      alookup "date_time_iso" out =
        some ⟨Dtype.obj, dts.map fun dt => Cell.str (isoformat dt)⟩ ∧
      ∀ dtcol, alookup "date_time" (prepRename df) = some dtcol →
        mapO
          (fun c =>
            match c with
            | Cell.str s => strptimeAmplabs s
            | _ => none)
          dtcol.cells = some dts) := by
  unfold AmpLabsDatapath.from_df at h
  simp only at h
  cases hcy : alookup "cycle_index" (prepRename df) with
  | none => rw [hcy] at h; cases h
  | some cyc =>
    rw [hcy] at h
    simp only at h
    cases htt : alookup "test_time" (setCol (prepRename df) "step_index" cyc) with
    | none => rw [htt] at h; cases h
    | some tt =>
      rw [htt] at h
      simp only at h
      cases hdt : alookup "date_time"
          (setCol (setCol (prepRename df) "step_index" cyc) "step_time" tt) with
      | none => rw [hdt] at h; cases h
      | some dtcol =>
        rw [hdt] at h
        simp only at h
        cases hmap : mapO
            (fun c =>
              match c with
              | Cell.str s => strptimeAmplabs s
              | _ => none)
            dtcol.cells with
        | none => rw [hmap] at h; cases h
        | some dts =>
          rw [hmap] at h
          simp only [Option.some.injEq] at h
          subst h
          refine ⟨?_, ?_, ?_⟩
          · intro raw canon hmem ⟨c, hc⟩
            have hfacts : strLower canon = canon ∧
                (¬ canon ∈ AmpLabsDatapath.COLUMNS_IGNORE) ∧
                canon ≠ "step_index" ∧ canon ≠ "step_time" ∧
                canon ≠ "date_time" ∧ canon ≠ "date_time_iso" ∧
                alookup raw AmpLabsDatapath.COLUMN_MAPPING = some canon := by
              fin_cases hmem <;> exact ⟨by decide, by decide, by decide,
                by decide, by decide, by decide, by decide⟩
            obtain ⟨hlow, hig, hsi, hstm, hdtn, hiso, hmap'⟩ := hfacts
            have hmemdf : (raw, c) ∈ df := alookup_mem raw df c hc
            have hmem2 : (canon, c) ∈ prepRename df := by
              rw [prepRename]
              apply List.mem_filter.mpr
              constructor
              · exact List.mem_map.mpr ⟨(raw, c), hmemdf, by
                  simp only [hmap', Option.getD_some, hlow]⟩
              · simpa using hig
            obtain ⟨c2, hc2⟩ := alookup_isSome_of_mem canon _ c hmem2
            have hc3 : alookup canon
                (setCol (prepRename df) "step_index" cyc) = some c2 := by
              rw [setCol_other _ _ _ _ hsi]; exact hc2
            have hc4 : alookup canon
                (setCol (setCol (prepRename df) "step_index" cyc)
                  "step_time" tt) = some c2 := by
              rw [setCol_other _ _ _ _ hstm]; exact hc3
            have hc5 : alookup canon
                (setCol (setCol (setCol (prepRename df) "step_index" cyc)
                  "step_time" tt) "date_time"
                  ⟨Dtype.float64, dts.map fun dt =>
                    Cell.num (timestampNum dt).1 (timestampNum dt).2⟩) =
                some c2 := by
              rw [setCol_other _ _ _ _ hdtn]; exact hc4
            have hc6 : alookup canon
                (setCol (setCol (setCol (setCol (prepRename df) "step_index"
                  cyc) "step_time" tt) "date_time"
                  ⟨Dtype.float64, dts.map fun dt =>
                    Cell.num (timestampNum dt).1 (timestampNum dt).2⟩)
                  "date_time_iso"
                  ⟨Dtype.obj, dts.map fun dt => Cell.str (isoformat dt)⟩) =
                some c2 := by
              rw [setCol_other _ _ _ _ hiso]; exact hc5
            exact castLoop_presence AmpLabsDatapath.DATA_TYPES _ canon c2 hc6
          · intro canon ty hmem col hcol hnull
            exact castLoop_dtype AmpLabsDatapath.DATA_TYPES _ canon ty
              (by decide) hmem col hcol hnull
          · refine ⟨dts, ?_, ?_⟩
            · rw [castLoop_other AmpLabsDatapath.DATA_TYPES _ "date_time_iso"
                (by decide)]
              exact setCol_self _ _ _
            · intro dtcol2 hdt2
              have : alookup "date_time"
                  (setCol (setCol (prepRename df) "step_index" cyc)
                    "step_time" tt) = some dtcol2 := by
                rw [setCol_other _ _ _ _ (by decide : "date_time" ≠ "step_time"),
                  setCol_other _ _ _ _ (by decide : "date_time" ≠ "step_index")]
                exact hdt2
              rw [this] at hdt
              cases hdt
              exact hmap


lemma castCell_float64_id (c : Cell) : castCell Dtype.float64 c = c := by
  cases c <;> rfl

lemma castCell_int32_safe (c : Cell) (h : castSafeCell c) :
    castCell Dtype.int32 c = c := by
  cases c with
  | null => rfl
  | str s => exact absurd h id
  | num n d =>
    obtain ⟨hd, hlo, hhi⟩ := h
    subst hd
    show Cell.num ((Int.tdiv n 1 + 2 ^ 31) % 2 ^ 32 - 2 ^ 31) 1 = Cell.num n 1
    rw [Int.tdiv_one]
    rw [Int.emod_eq_of_lt (by omega) (by omega)]
    congr 1
    omega

lemma map_id_of (l : List Cell) (f : Cell → Cell) (h : ∀ c ∈ l, f c = c) :
    l.map f = l := by
  induction l with
  | nil => rfl
  | cons a t ih =>
    rw [List.map_cons, h a (List.mem_cons_self a t),
      ih (fun c hc => h c (List.mem_cons_of_mem a hc))]

/-- **C10 (amended).** In every output of `from_df`, the `step_time` column
equals the `test_time` column cell for cell, and the `step_index` column
equals the `cycle_index` column cell for cell provided every `step_index`
cell (the pre-cast copy of `cycle_index`) is an integer in the signed 32-bit
range — otherwise the `int32` cast changes `cycle_index` but not its copy. -/
theorem step_columns_copy (df out : List (String × Col))
    (h : AmpLabsDatapath.from_df df = some out) :
    (∀ colS colT, alookup "step_time" out = some colS →
      alookup "test_time" out = some colT → colS.cells = colT.cells) ∧
    (∀ colI colC, alookup "step_index" out = some colI →
      alookup "cycle_index" out = some colC →
      (∀ c ∈ colI.cells, castSafeCell c) → colI.cells = colC.cells) := by
  unfold AmpLabsDatapath.from_df at h
  simp only at h
  cases hcy : alookup "cycle_index" (prepRename df) with
  | none => rw [hcy] at h; cases h
  | some cyc =>
    rw [hcy] at h
    simp only at h
    cases htt : alookup "test_time" (setCol (prepRename df) "step_index" cyc) with
    | none => rw [htt] at h; cases h
    | some tt =>
      rw [htt] at h
      simp only at h
      cases hdt : alookup "date_time"
          (setCol (setCol (prepRename df) "step_index" cyc) "step_time" tt) with
      | none => rw [hdt] at h; cases h
      | some dtcol =>
        rw [hdt] at h
        simp only at h
        cases hmap : mapO
            (fun c =>
              match c with
              | Cell.str s => strptimeAmplabs s
              | _ => none)
            dtcol.cells with
        | none => rw [hmap] at h; cases h
        | some dts =>
          rw [hmap] at h
          simp only [Option.some.injEq] at h
          subst h
          constructor
          · intro colS colT hS hT
            rw [castLoop_other AmpLabsDatapath.DATA_TYPES _ "step_time"
                (by decide),
              setCol_other _ _ _ _ (by decide : "step_time" ≠ "date_time_iso"),
              setCol_other _ _ _ _ (by decide : "step_time" ≠ "date_time"),
              setCol_self] at hS
            cases hS
            have htt6 : alookup "test_time"
                (setCol (setCol (setCol (setCol (prepRename df) "step_index"
                  cyc) "step_time" tt) "date_time"
                  ⟨Dtype.float64, dts.map fun dt =>
                    Cell.num (timestampNum dt).1 (timestampNum dt).2⟩)
                  "date_time_iso"
                  ⟨Dtype.obj, dts.map fun dt => Cell.str (isoformat dt)⟩) =
                some tt := by
              rw [setCol_other _ _ _ _ (by decide : "test_time" ≠ "date_time_iso"),
                setCol_other _ _ _ _ (by decide : "test_time" ≠ "date_time"),
                setCol_other _ _ _ _ (by decide : "test_time" ≠ "step_time")]
              exact htt
            rcases castLoop_shape AmpLabsDatapath.DATA_TYPES _ "test_time"
                (by decide) colT hT with hleft | ⟨ty, c0, hmem, hlk, hnul, hcast⟩
            · rw [htt6] at hleft
              cases hleft
              rfl
            · rw [htt6] at hlk
              cases hlk
              have hty : ty = Dtype.float64 := by
                have h1 := alookup_of_mem_nodup "test_time"
                  AmpLabsDatapath.DATA_TYPES ty (by decide) hmem
                have h2 : alookup "test_time" AmpLabsDatapath.DATA_TYPES =
                    some Dtype.float64 := by decide
                rw [h1] at h2
                cases h2
                rfl
              rw [hcast, hty]
              show tt.cells = (astype Dtype.float64 tt).cells
              rw [astype]
              exact (map_id_of tt.cells _ (fun c _ => castCell_float64_id c)).symm
          · intro colI colC hI hC hsafe
            rw [castLoop_other AmpLabsDatapath.DATA_TYPES _ "step_index"
                (by decide),
              setCol_other _ _ _ _ (by decide : "step_index" ≠ "date_time_iso"),
              setCol_other _ _ _ _ (by decide : "step_index" ≠ "date_time"),
              setCol_other _ _ _ _ (by decide : "step_index" ≠ "step_time"),
              setCol_self] at hI
            cases hI
            have hcy6 : alookup "cycle_index"
                (setCol (setCol (setCol (setCol (prepRename df) "step_index"
                  cyc) "step_time" tt) "date_time"
                  ⟨Dtype.float64, dts.map fun dt =>
                    Cell.num (timestampNum dt).1 (timestampNum dt).2⟩)
                  "date_time_iso"
                  ⟨Dtype.obj, dts.map fun dt => Cell.str (isoformat dt)⟩) =
                some cyc := by
              rw [setCol_other _ _ _ _ (by decide : "cycle_index" ≠ "date_time_iso"),
                setCol_other _ _ _ _ (by decide : "cycle_index" ≠ "date_time"),
                setCol_other _ _ _ _ (by decide : "cycle_index" ≠ "step_time"),
                setCol_other _ _ _ _ (by decide : "cycle_index" ≠ "step_index")]
              exact hcy
            rcases castLoop_shape AmpLabsDatapath.DATA_TYPES _ "cycle_index"
                (by decide) colC hC with hleft | ⟨ty, c0, hmem, hlk, hnul, hcast⟩
            · rw [hcy6] at hleft
              cases hleft
              rfl
            · rw [hcy6] at hlk
              cases hlk
              have hty : ty = Dtype.int32 := by
                have h1 := alookup_of_mem_nodup "cycle_index"
                  AmpLabsDatapath.DATA_TYPES ty (by decide) hmem
                have h2 : alookup "cycle_index" AmpLabsDatapath.DATA_TYPES =
                    some Dtype.int32 := by decide
                rw [h1] at h2
                cases h2
                rfl
              rw [hcast, hty]
              show cyc.cells = (astype Dtype.int32 cyc).cells
              rw [astype]
              exact (map_id_of cyc.cells _
                (fun c hc => castCell_int32_safe c (hsafe c hc))).symm

/-- **C9 (counterexample).** An accepted input whose voltage column holds a
null keeps its original `float64` dtype in the output instead of the
`float32` declared in `DATA_TYPES`: the claim fails as stated. -/
theorem from_df_dtype_counterexample :
    AmpLabsDatapath.from_df exDfNull = some exOutNull ∧
    ("Voltage (v)", "voltage") ∈ AmpLabsDatapath.COLUMN_MAPPING ∧
    ("voltage", Dtype.float32) ∈ AmpLabsDatapath.DATA_TYPES ∧
    alookup "voltage" exOutNull = some ⟨Dtype.float64, [Cell.null]⟩ ∧
    Dtype.float64 ≠ Dtype.float32 := by
  refine ⟨by decide, by decide, by decide, by decide, by decide⟩

/-- **C9 (witness).** The normalization theorem applied to a concrete
well-formed input table. -/
theorem from_df_normalized_witness :
    ∃ c', alookup "voltage" exOutGood = some c' :=
  (from_df_normalized exDfGood exOutGood (by decide)).1 "Voltage (v)" "voltage"
    (by decide) ⟨⟨Dtype.float64, [Cell.num 37 10]⟩, by decide⟩

/-- **C10 (counterexample).** An accepted input whose cycle index holds the
fractional value 1.5: the output's `step_index` keeps 1.5 while
`cycle_index` is truncated to 1 by the `int32` cast, so the two columns are
not equal row by row. -/
theorem step_index_copy_counterexample :
    AmpLabsDatapath.from_df exDfFrac = some exOutFrac ∧
    alookup "step_index" exOutFrac = some ⟨Dtype.float64, [Cell.num 3 2]⟩ ∧
    alookup "cycle_index" exOutFrac = some ⟨Dtype.int32, [Cell.num 1 1]⟩ ∧
    ([Cell.num 3 2] : List Cell) ≠ [Cell.num 1 1] := by
  refine ⟨by decide, by decide, by decide, by decide⟩

/-- **C10 (witness).** The copy theorem applied to a concrete well-formed
input table with an integral cycle index. -/
theorem step_columns_copy_witness :
    ([Cell.num 1 1] : List Cell) = [Cell.num 1 1] :=
  (step_columns_copy exDfGood exOutGood (by decide)).2
    ⟨Dtype.float64, [Cell.num 1 1]⟩ ⟨Dtype.int32, [Cell.num 1 1]⟩
    (by decide) (by decide) (by decide)
